import Mathlib

/-
  Verification development for the jessiql query layer.

  The definitions below are shallow embeddings of the Python sources:
  JSON-shaped Query Object dicts are association lists of (key, value)
  pairs preserving insertion order (Python dicts preserve insertion
  order), Python ints are Lean Int, and fallible code returns Except.
-/

set_option maxHeartbeats 1000000
set_option linter.unusedVariables false

namespace Jessiql

/-- JSON-like values as they travel through Query Object dicts.
    Objects are association lists that keep the insertion order of a Python dict. -/
inductive JValue where
  | jnull : JValue
  | jbool : Bool → JValue
  | jint : Int → JValue
  | jstr : String → JValue
  | jarr : List JValue → JValue
  | jobj : List (String × JValue) → JValue
  deriving Repr

/-- Python truthiness of a JSON value (used by the `x or default` idiom). -/
def JValue.truthy : JValue → Bool
  | .jnull => false
  | .jbool b => b
  | .jint n => n ≠ 0
  | .jstr s => s ≠ ""
  | .jarr l => !l.isEmpty
  | .jobj l => !l.isEmpty

/-- Python str.split(sep) for a one-character separator, on char lists:
    an empty string gives one empty group. -/
def splitChars (sep : Char) : List Char → List (List Char)
  | [] => [[]]
  | c :: rest =>
    let r := splitChars sep rest
    if c = sep then [] :: r
    else
      match r with
      | [] => [[c]]
      | g :: gs => (c :: g) :: gs

/-- Python str.split(sep) on strings (single-character separator). -/
def pySplit (s : String) (sep : Char) : List String :=
  (splitChars sep s.toList).map (fun cs => ⟨cs⟩)

/-- Python str.startswith. -/
def pyStartsWith (s t : String) : Bool :=
  t.toList.isPrefixOf s.toList

/-- Python str.split(sep, 1): split at the first occurrence only; None models
    the separator being absent. -/
def breakAtChar (sep : Char) : List Char → Option (List Char × List Char)
  | [] => none
  | c :: rest =>
    if c = sep then some ([], rest)
    else
      match breakAtChar sep rest with
      | none => none
      | some (a, b) => some (c :: a, b)

/-- Python dict.get(k): None when the key is missing; first binding wins
    (a real dict has no duplicate keys). -/
def jget (kvs : List (String × JValue)) (k : String) : Option JValue :=
  (kvs.find? (fun kv => kv.1 = k)).map (·.2)

/-- The Python idiom `d.get(k) or default`: the default replaces a missing
    or falsy value. -/
def jgetOr (kvs : List (String × JValue)) (k : String) (dflt : JValue) : JValue :=
  match jget kvs k with
  | none => dflt
  | some v => if v.truthy then v else dflt

/-- Python dict.update on an association list: an existing key keeps its
    position and gets the new value; a new key is appended. -/
def dictUpdate {α : Type} (res upd : List (String × α)) : List (String × α) :=
  upd.foldl (fun acc p =>
    if (acc.map Prod.fst).contains p.1 then
      acc.map (fun kv => if kv.1 = p.1 then (p.1, p.2) else kv)
    else acc ++ [p]) res

/-- Building a Python dict from a list of (key, value) pairs:
    later values overwrite, the first insertion position is kept. -/
def pyDictOf {α : Type} (ps : List (String × α)) : List (String × α) :=
  dictUpdate [] ps

/-- Deduplicate a list of keys keeping the first occurrence
    (the key order of a Python dict comprehension). -/
def dedupFirst (l : List String) : List String :=
  l.foldl (fun acc k => if acc.contains k then acc else acc ++ [k]) []

mutual

/-- Size of a JSON value, used as a fuel bound for recursive parsing. -/
def jsize : JValue → Nat
  | .jnull => 1
  | .jbool _ => 1
  | .jint _ => 1
  | .jstr _ => 1
  | .jarr l => 1 + jsizeL l
  | .jobj l => 1 + jsizeO l

/-- Size of a JSON array body. -/
def jsizeL : List JValue → Nat
  | [] => 1
  | v :: r => 1 + jsize v + jsizeL r

/-- Size of a JSON object body. -/
def jsizeO : List (String × JValue) → Nat
  | [] => 1
  | p :: r => 2 + jsize p.2 + jsizeO r

end

/-- Errors raised while parsing a Query Object.
    queryObjectError models jessiql.exc.QueryObjectError; dynamicError models
    raw Python exceptions (TypeError, AttributeError) escaping from the parser. -/
inductive QOErr where
  | queryObjectError (msg : String)
  | dynamicError (msg : String)
  deriving Repr, DecidableEq

/-! ## query_object/sort.py -/

/-- SortingDirection (query_object/sort.py): ASC is encoded "+", DESC is "-". -/
inductive SortingDirection where
  | ASC
  | DESC
  deriving Repr, DecidableEq

/-- The enum value character of a sorting direction. -/
def SortingDirection.value : SortingDirection → String
  | .ASC => "+"
  | .DESC => "-"

/-- parse_dot_notation (util/expressions.py): split a field reference at the
    first dot; an empty remainder is falsy in Python and yields no sub path. -/
def parse_dot_path (input : String) : String × Option (List String) :=
  match pySplit input '.' with
  | [] => (input, none)
  | [nm] => (nm, none)
  | nm :: rest =>
      (nm, if String.intercalate "." rest = "" then none else some rest)

/-- SortingField (query_object/sort.py), restricted to the fields filled in by
    parsing (the resolution-time fields live in ResolvedSortField below). -/
structure SortingField where
  name : String
  direction : SortingDirection
  sub_path : Option (List String)
  deriving Repr, DecidableEq

/-- SortingField._field_expression: the dotted field reference. -/
def SortingField.field_expression (f : SortingField) : String :=
  match f.sub_path with
  | none => f.name
  | some sub => String.intercalate "." (f.name :: sub)

/-- SortingField.export: field expression followed by the direction character. -/
def SortingField.export (f : SortingField) : String :=
  f.field_expression ++ f.direction.value

/-- SortQuery._parse_input_field (query_object/sort.py): look at the final
    character; "-" and "+" pick the direction, otherwise ASC is the default. -/
def SortQuery.parse_input_field (field : String) : SortingField :=
  let end_c := field.takeRight 1
  if end_c = "-" ∨ end_c = "+" then
    let nm := field.dropRight 1
    let dir := if end_c = "-" then SortingDirection.DESC else SortingDirection.ASC
    let p := parse_dot_path nm
    ⟨p.1, dir, p.2⟩
  else
    let p := parse_dot_path field
    ⟨p.1, SortingDirection.ASC, p.2⟩

/-- The element loop of SortQuery.from_query_object: every element must be a
    string (a non-string raises a raw TypeError inside _parse_input_field,
    modelled as dynamicError). -/
def sort_items_parse : List JValue → Except QOErr (List SortingField)
  | [] => .ok []
  | it :: rest =>
    match it with
    | .jstr s =>
      match sort_items_parse rest with
      | .error e => .error e
      | .ok fs => .ok (SortQuery.parse_input_field s :: fs)
    | _ => .error (.dynamicError "sort field is not a string")

/-- SortQuery.from_query_object (query_object/sort.py): the input must be an
    array; fields are parsed elementwise. -/
def SortQuery.from_query_object (sort : JValue) : Except QOErr (List SortingField) :=
  match sort with
  | .jarr items => sort_items_parse items
  | _ => .error (.queryObjectError "\"sort\" must be an array")

/-- SortQuery.export: export every sorting field. -/
def SortQuery.export (fields : List SortingField) : List String :=
  fields.map SortingField.export

/-! ## query_object/filter.py -/

/-- Parsed filter conditions: FieldFilterExpression and BooleanFilterExpression
    (query_object/filter.py); the resolution-time handler field is not part of
    parsing. -/
inductive FilterExpr where
  | field (fieldName : String) (sub_path : Option (List String))
      (operator : String) (value : JValue)
  | boolean (operator : String) (clauses : List FilterExpr)
  deriving Repr

/-- FilterQuery._parse_input_field_expressions: a non-dict value is an $eq
    shortcut; a dict value yields one expression per operator. -/
def FilterQuery.parse_input_field_expressions (field_name : String) (value : JValue) :
    List FilterExpr :=
  let p := parse_dot_path field_name
  match value with
  | .jobj items => items.map (fun kv => .field p.1 p.2 kv.1 kv.2)
  | _ => [.field p.1 p.2 "$eq" value]

mutual

/-- FilterQuery._parse_input_fields: keys starting with $ are boolean
    expressions; other keys are field expressions. -/
def FilterQuery.parse_input_fields : List (String × JValue) → Except QOErr (List FilterExpr)
  | [] => .ok []
  | (key, value) :: rest =>
    if pyStartsWith key "$" then
      match FilterQuery.parse_input_boolean_expression key value with
      | .error e => .error e
      | .ok e =>
        match FilterQuery.parse_input_fields rest with
        | .error e2 => .error e2
        | .ok es => .ok (e :: es)
    else
      match FilterQuery.parse_input_fields rest with
      | .error e2 => .error e2
      | .ok es => .ok (FilterQuery.parse_input_field_expressions key value ++ es)

/-- FilterQuery._parse_input_boolean_expression: $not takes an object (wrapped
    into a one-element list), every other boolean operator takes an array;
    clauses of all conditions are chained together. -/
def FilterQuery.parse_input_boolean_expression (operator : String) (conditions : JValue) :
    Except QOErr FilterExpr :=
  if operator = "$not" then
    match conditions with
    | .jobj m =>
      match FilterQuery.parse_input_fields m with
      | .error e => .error e
      | .ok clauses => .ok (.boolean operator clauses)
    | _ => .error (.queryObjectError "the operand of $not must be an object")
  else
    match conditions with
    | .jarr l =>
      match FilterQuery.parse_condition_list l with
      | .error e => .error e
      | .ok clauses => .ok (.boolean operator clauses)
    | _ => .error (.queryObjectError "the operand of a boolean operator must be an array")

/-- itertools.chain.from_iterable over the condition dicts of a boolean
    operand list; a non-dict condition raises a raw AttributeError. -/
def FilterQuery.parse_condition_list : List JValue → Except QOErr (List FilterExpr)
  | [] => .ok []
  | c :: rest =>
    match c with
    | .jobj kvs =>
      match FilterQuery.parse_input_fields kvs with
      | .error e => .error e
      | .ok es =>
        match FilterQuery.parse_condition_list rest with
        | .error e2 => .error e2
        | .ok es2 => .ok (es ++ es2)
    | _ => .error (.dynamicError "condition must be an object")

end

/-- FilterQuery.from_query_object (query_object/filter.py). -/
def FilterQuery.from_query_object (filter : JValue) : Except QOErr (List FilterExpr) :=
  match filter with
  | .jobj kvs => FilterQuery.parse_input_fields kvs
  | _ => .error (.queryObjectError "\"filter\" must be an object")

/-- FieldFilterExpression._export_field_expression. -/
def exportFieldExpression (nm : String) (sub : Option (List String)) : String :=
  match sub with
  | none => nm
  | some s => String.intercalate "." (nm :: s)

mutual

/-- FieldFilterExpression.export and BooleanFilterExpression.export:
    each condition exports as a one-key dict. -/
def FilterExpr.export : FilterExpr → List (String × JValue)
  | .field nm sub op v => [(exportFieldExpression nm sub, .jobj [(op, v)])]
  | .boolean op clauses => [(op, .jarr (FilterExpr.exportClauses clauses))]

/-- The list comprehension over clauses inside BooleanFilterExpression.export. -/
def FilterExpr.exportClauses : List FilterExpr → List JValue
  | [] => []
  | c :: rest => .jobj c.export :: FilterExpr.exportClauses rest

end

/-- FilterQuery.export: start from an empty dict and update it with the export
    of every condition (dict.update replaces earlier keys). -/
def FilterQuery.export (conds : List FilterExpr) : List (String × JValue) :=
  conds.foldl (fun res c => dictUpdate res c.export) []

/-! ## query_object/pager.py -/

/-- SkipQuery.from_query_object (query_object/pager.py): None or an int
    (a Python bool is an int subclass and is modelled by its integer value). -/
def SkipQuery.from_query_object : Option JValue → Except QOErr (Option Int)
  | none => .ok none
  | some .jnull => .ok none
  | some (.jint n) => .ok (some n)
  | some (.jbool b) => .ok (some (if b then 1 else 0))
  | some _ => .error (.queryObjectError "\"skip\" must be an integer")

/-- LimitQuery.from_query_object (query_object/pager.py). -/
def LimitQuery.from_query_object : Option JValue → Except QOErr (Option Int)
  | none => .ok none
  | some .jnull => .ok none
  | some (.jint n) => .ok (some n)
  | some (.jbool b) => .ok (some (if b then 1 else 0))
  | some _ => .error (.queryObjectError "\"limit\" must be an integer")

/-- BeforeQuery.from_query_object (query_object/pager.py): the cursor value is
    stored as-is, with no type check at all. -/
def BeforeQuery.from_query_object : Option JValue → Option JValue
  | none => none
  | some .jnull => none
  | some v => some v

/-! ## query_object/query_object.py and query_object/select.py -/

/-- QueryObject (query_object/query_object.py) after parsing: the select
    operation keeps fields and relations in two separate insertion-ordered
    dicts (query_object/select.py). -/
inductive QueryObject where
  | mk (select_fields : List String)
       (select_relations : List (String × QueryObject))
       (filterConds : List FilterExpr)
       (sortFields : List SortingField)
       (skip : Option Int) (limit : Option Int)
       (before : Option JValue) (after : Option JValue)

def QueryObject.select_fields : QueryObject → List String
  | .mk a _ _ _ _ _ _ _ => a

def QueryObject.select_relations : QueryObject → List (String × QueryObject)
  | .mk _ a _ _ _ _ _ _ => a

def QueryObject.filterConds : QueryObject → List FilterExpr
  | .mk _ _ a _ _ _ _ _ => a

def QueryObject.sortFields : QueryObject → List SortingField
  | .mk _ _ _ a _ _ _ _ => a

def QueryObject.skip : QueryObject → Option Int
  | .mk _ _ _ _ a _ _ _ => a

def QueryObject.limit : QueryObject → Option Int
  | .mk _ _ _ _ _ a _ _ => a

mutual

/-- QueryObject.from_query_object (query_object/query_object.py), on the
    entries of a Query Object dict. The fuel argument only bounds recursion
    into nested query dicts; sizeOf of the input is always enough
    (see queryObject_from_query_object). -/
def parseQO : Nat → List (String × JValue) → Except QOErr QueryObject
  | 0, _ => .error (.dynamicError "recursion limit")
  | n + 1, d => do
    let sel ← parseSelect n (jgetOr d "select" (.jarr [])) (jgetOr d "join" (.jobj []))
    let conds ← FilterQuery.from_query_object (jgetOr d "filter" (.jobj []))
    let sorts ← SortQuery.from_query_object (jgetOr d "sort" (.jarr []))
    let skip ← SkipQuery.from_query_object (jget d "skip")
    let limit ← LimitQuery.from_query_object (jget d "limit")
    let before := BeforeQuery.from_query_object (jget d "before")
    let after := BeforeQuery.from_query_object (jget d "after")
    return .mk sel.1 sel.2 conds sorts skip limit before after

/-- SelectQuery.from_query_object (query_object/select.py): type-check select
    and join, then walk select items with the join dict appended as one more
    item; fields and relations become insertion-ordered dicts. -/
def parseSelect : Nat → JValue → JValue →
    Except QOErr (List String × List (String × QueryObject))
  | 0, _, _ => .error (.dynamicError "recursion limit")
  | n + 1, select, join =>
    match select, join with
    | .jarr items, .jobj joinEntries => do
      let fr ← parseSelectItems n (items ++ [.jobj joinEntries])
      return (dedupFirst fr.1, pyDictOf fr.2)
    | .jarr _, _ => .error (.queryObjectError "\"join\" must be an array")
    | _, _ => .error (.queryObjectError "\"select\" must be an array")

/-- The item loop of SelectQuery.from_query_object: a string is a field name,
    a dict holds relations, anything else is rejected. -/
def parseSelectItems : Nat → List JValue →
    Except QOErr (List String × List (String × QueryObject))
  | 0, _ => .error (.dynamicError "recursion limit")
  | _ + 1, [] => .ok ([], [])
  | n + 1, .jstr s :: rest => do
    let fr ← parseSelectItems n rest
    return (s :: fr.1, fr.2)
  | n + 1, .jobj entries :: rest => do
    let rs ← parseRelationEntries n entries
    let fr ← parseSelectItems n rest
    return (fr.1, rs ++ fr.2)
  | _ + 1, _ :: _ => .error (.queryObjectError "Unsupported type encountered in \"select\"")

/-- The relation comprehension of SelectQuery.from_query_object: every entry of
    a dict item becomes a SelectedRelation with a recursively parsed query;
    a non-dict nested query raises a raw AttributeError. -/
def parseRelationEntries : Nat → List (String × JValue) →
    Except QOErr (List (String × QueryObject))
  | 0, _ => .error (.dynamicError "recursion limit")
  | _ + 1, [] => .ok []
  | n + 1, (nm, q) :: rest =>
    match q with
    | .jobj subd => do
      let sub ← parseQO n subd
      let rs ← parseRelationEntries n rest
      return (nm, sub) :: rs
    | _ => .error (.dynamicError "nested query must be an object")

end

/-- QueryObject.from_query_object (query_object/query_object.py): the parser
    with enough fuel for its input. -/
def queryObject_from_query_object (d : List (String × JValue)) : Except QOErr QueryObject :=
  parseQO (jsizeO d + 5) d

/-- Conversion used by QueryObject.dict for the pager values. -/
def optIntToJ : Option Int → JValue
  | none => .jnull
  | some n => .jint n

mutual

/-- QueryObject.dict (query_object/query_object.py): export all eight keys;
    select exports field names (SelectQuery.export_select), join exports
    relations with recursively exported queries (SelectQuery.export_join). -/
def QueryObject.dict : QueryObject → JValue
  | .mk flds rels conds sorts skip limit before after =>
    .jobj [
      ("select", .jarr (flds.map JValue.jstr)),
      ("join", .jobj (QueryObject.export_join rels)),
      ("filter", .jobj (FilterQuery.export conds)),
      ("sort", .jarr ((SortQuery.export sorts).map JValue.jstr)),
      ("skip", optIntToJ skip),
      ("limit", optIntToJ limit),
      ("before", before.getD .jnull),
      ("after", after.getD .jnull)]

/-- SelectQuery.export_join: relation name to exported nested query dict. -/
def QueryObject.export_join : List (String × QueryObject) → List (String × JValue)
  | [] => []
  | (nm, q) :: rest => (nm, q.dict) :: QueryObject.export_join rest

end

/-- Modelled from the claim wording of C1: the input dict with every omitted
    optional key filled with its documented default (select [], join and
    filter empty objects, sort [], and null for skip, limit, before, after),
    applied recursively to the nested query dicts under join. The fuel
    argument bounds recursion; jsizeO of the input is always enough. -/
def normalizeQO : Nat → List (String × JValue) → JValue
  | 0, d => .jobj d
  | n + 1, d =>
    .jobj [
      ("select", (jget d "select").getD (.jarr [])),
      ("join",
        match (jget d "join").getD (.jobj []) with
        | .jobj entries =>
          JValue.jobj (entries.map (fun p =>
            (p.1, match p.2 with
                  | .jobj sub => normalizeQO n sub
                  | other => other)))
        | other => other),
      ("filter", (jget d "filter").getD (.jobj [])),
      ("sort", (jget d "sort").getD (.jarr [])),
      ("skip", (jget d "skip").getD .jnull),
      ("limit", (jget d "limit").getD .jnull),
      ("before", (jget d "before").getD .jnull),
      ("after", (jget d "after").getD .jnull)]

/-- The claim-side normalization with enough fuel for its input. -/
def normalize_query_object_dict (d : List (String × JValue)) : JValue :=
  normalizeQO (jsizeO d + 4) d

/-! ## sainfo/columns.py and operations/pager/cursor_keyset.py -/

/-- A sort field as resolved against the model: its name, direction, and the
    column-property facts that the keyset pager consults. -/
structure ResolvedSortField where
  name : String
  direction : SortingDirection
  primary_key : Bool
  unique : Bool
  nullable : Bool
  deriving Repr, DecidableEq

/-- is_column_property_unique (sainfo/columns.py): primary key or unique. -/
def is_column_property_unique (f : ResolvedSortField) : Bool :=
  f.primary_key || f.unique

/-- is_column_property_nullable (sainfo/columns.py). -/
def is_column_property_nullable (f : ResolvedSortField) : Bool :=
  f.nullable

/-- The parts of a resolved query consulted by the pager: the sort fields
    (query.sort.fields) and the set of selected names (query.select.names,
    fields and relations). -/
structure ResolvedPagerQuery where
  sortFields : List ResolvedSortField
  selectNames : List String

/-- KeysetCursor.pagination_possible (operations/pager/cursor_keyset.py):
    sorted, uniform direction, final field unique and non-nullable, and all
    sort names selected. -/
def pagination_possible (q : ResolvedPagerQuery) : Bool :=
  match q.sortFields.getLast? with
  | none => false
  | some final_field =>
    if ((q.sortFields.map (·.direction)).dedup.length ≠ 1 : Bool) then false
    else if !(is_column_property_unique final_field) ||
            is_column_property_nullable final_field then false
    else if !(q.sortFields.all fun f => q.selectNames.contains f.name) then false
    else true

/-- The two cursor implementations. -/
inductive CursorCls where
  | keyset
  | skip
  deriving Repr, DecidableEq

/-- The cursor-class choice of BeforeAfterOperation.for_query
    (operations/pager/beforeafter.py); none models the NotImplementedError of
    get_cursor_impl_cls for an unknown cursor. -/
def choose_cursor_impl (cursor : Option String) (q : ResolvedPagerQuery) :
    Option CursorCls :=
  match cursor with
  | none => some (if pagination_possible q then .keyset else .skip)
  | some c =>
    if pyStartsWith c "skip" then some .skip
    else if pyStartsWith c "keys" then some .keyset
    else none

/-! ## operations/pager/beforeafter.py (mutual exclusivity, C4) -/

/-- The mutual-exclusivity check of BeforeAfterOperation.__init__: at most one
    of skip, before, after may be set; on success, the chosen cursor string and
    pagination direction are returned. -/
def before_after_init_check (skip : Option Int) (before after : Option String) :
    Except QOErr (Option String × Option Int) :=
  if (if before.isSome then 1 else 0) + (if after.isSome then 1 else 0) +
      (if skip.isSome then 1 else 0) > 1 then
    .error (.queryObjectError
      "Choose a pagination method and use either skip, or before, or after.")
  else
    match before with
    | some b => .ok (some b, some (-1))
    | none =>
      match after with
      | some a => .ok (some a, some 1)
      | none => .ok (none, none)

/-! ## operations/pager/cursor_skip.py (C3) -/

/-- SkipCursorData (operations/pager/cursor_skip.py). -/
structure SkipCursorData where
  skip : Int
  limit : Int
  deriving Repr, DecidableEq

/-- The state of a SkipCursor after __init__: the decoded or constructed
    cursor value and the effective limit. -/
structure SkipCursorState where
  cursor_value : Option SkipCursorData
  limit : Option Int
  deriving Repr, DecidableEq

/-- SkipCursor.__init__ without an incoming cursor string: build cursor_value
    from the skip and limit inputs. -/
def skipCursor_init (skip limit : Option Int) : SkipCursorState :=
  match skip, limit with
  | some s, some l => ⟨some ⟨s, l⟩, some l⟩
  | none, some l => ⟨none, some l⟩
  | _, none => ⟨none, none⟩

/-- SkipCursor.__init__ with an incoming decoded cursor: the query limit must
    be absent or equal to the cursor limit. -/
def skipCursor_init_with_cursor (c : SkipCursorData) (limit : Option Int) :
    Except QOErr SkipCursorState :=
  if limit = none ∨ limit = some c.limit then
    .ok ⟨some c, some c.limit⟩
  else
    .error (.queryObjectError
      "You cannot adjust the limit while using cursor-based pagination.")

/-- Pagination clauses of a SELECT statement, as set by offset() and limit(). -/
structure StmtPagination where
  offset : Option Int
  limit : Option Int
  deriving Repr, DecidableEq

/-- SkipCursor.apply_to_statement: OFFSET skip (0 without a cursor value) and
    LIMIT limit+1 (limit(None) removes the clause). -/
def skipCursor_apply_to_statement (st : SkipCursorState) (stmt : StmtPagination) :
    StmtPagination :=
  let skip := match st.cursor_value with
    | some c => c.skip
    | none => 0
  let limit := match st.limit with
    | some l => some (l + 1)
    | none => none
  { stmt with offset := some skip, limit := limit }

/-- SkipCursor.inspect_data_rows: detect the extra row and remove it.
    Returns the kept rows and has_next_page. (When has_next_page holds the
    row list is non-empty for every non-negative limit, so rows.pop() of the
    source never fails there.) -/
def skipCursor_inspect_data_rows {α : Type} (st : SkipCursorState) (rows : List α) :
    List α × Bool :=
  match st.limit with
  | none => (rows, false)
  | some limit =>
    let expected_count := limit + 1
    let has_next_page := ((rows.length : Int) = expected_count : Bool)
    if has_next_page then (rows.dropLast, true) else (rows, false)

/-- Links to the previous and the next page, represented by the SkipCursorData
    they encode (SkipCursorData.encode wraps exactly these two numbers). -/
structure SkipPageLinks where
  prev : Option SkipCursorData
  next : Option SkipCursorData
  deriving Repr, DecidableEq

/-- SkipCursor.get_page_links, given has_next_page from page_info. -/
def skipCursor_get_page_links (st : SkipCursorState) (has_next_page : Bool) :
    SkipPageLinks :=
  let skip := match st.cursor_value with
    | some c => c.skip
    | none => 0
  match st.limit with
  | none => ⟨none, none⟩
  | some limit =>
    let prev := if skip ≤ 0 then none
      else some (SkipCursorData.mk (max (skip - limit) 0) limit)
    let next := if has_next_page then some (SkipCursorData.mk (skip + limit) limit)
      else none
    ⟨prev, next⟩

/-! ## features/cursor/cursors/encode.py and features/cursor/skiplimit.py (C5) -/

/-- Python exceptions that can escape from cursor decoding. -/
inductive PyError where
  | valueError
  | assertionError
  | binasciiError
  | jsonDecodeError
  | typeError
  | notImplementedError
  | queryObjectError (msg : String)
  deriving Repr, DecidableEq

/-- decode_opaque_cursor (features/cursor/cursors/encode.py): split at the
    first colon, check the type tag, then JSON-decode the base85-decoded
    remainder. b85decode and jsonLoads stand for the Python stdlib functions,
    which may fail on malformed input. -/
def decode_opaque_cursor (b85decode : String → Except PyError String)
    (jsonLoads : String → Except PyError JValue) (data : String) :
    Except PyError (String × JValue) :=
  match breakAtChar ':' data.toList with
  | none => .error .valueError
  | some ab =>
    if String.mk ab.1 = "skip" ∨ String.mk ab.1 = "keys" then
      match b85decode (String.mk ab.2) with
      | .error e => .error e
      | .ok decoded =>
        match jsonLoads decoded with
        | .error e => .error e
        | .ok parsed => .ok (String.mk ab.1, parsed)
    else .error .assertionError

/-- The set of keys of a JSON object (as a deduplicated list). -/
def jobjKeys (kvs : List (String × JValue)) : List String :=
  dedupFirst (kvs.map Prod.fst)

/-- A decoded cursor payload: the kwargs of SkipCursorData(**data) or
    KeysetCursorData(**data); a NamedTuple does not check value types. -/
inductive CursorValue where
  | skipData (skip limit : JValue)
  | keysData (limit cols op val : JValue)
  deriving Repr

/-- SkipCursorData.decode (features/cursor/cursors/skip.py):
    decode_opaque_cursor, then SkipCursorData(**data); a payload that is not a
    dict with exactly the keys skip and limit raises a TypeError. -/
def skipCursorData_decode (b85decode : String → Except PyError String)
    (jsonLoads : String → Except PyError JValue) (cursor : String) :
    Except PyError CursorValue := do
  let td ← decode_opaque_cursor b85decode jsonLoads cursor
  match td.2 with
  | .jobj kvs =>
    if jobjKeys kvs = ["skip", "limit"] ∨ jobjKeys kvs = ["limit", "skip"] then
      match jget kvs "skip", jget kvs "limit" with
      | some s, some l => return .skipData s l
      | _, _ => throw PyError.typeError
    else throw PyError.typeError
  | _ => throw PyError.typeError

/-- PageLinks.decode for the keyset pager (operations/pager/cursor_keyset.py
    KeysetCursorData): the payload must be a dict with exactly the keys
    limit, cols, op, val. -/
def keysetCursorData_decode (b85decode : String → Except PyError String)
    (jsonLoads : String → Except PyError JValue) (cursor : String) :
    Except PyError CursorValue := do
  let td ← decode_opaque_cursor b85decode jsonLoads cursor
  match td.2 with
  | .jobj kvs =>
    if (jobjKeys kvs).length = 4 ∧
        (["limit", "cols", "op", "val"].all fun k => (jobjKeys kvs).contains k) then
      match jget kvs "limit", jget kvs "cols", jget kvs "op", jget kvs "val" with
      | some l, some c, some o, some v => return .keysData l c o v
      | _, _, _, _ => throw PyError.typeError
    else throw PyError.typeError
  | _ => throw PyError.typeError

/-- get_cursor_impl (features/cursor/cursors/__init__.py): dispatch on the
    leading type tag; an unknown tag raises NotImplementedError. -/
def get_cursor_impl (cursor : String) : Except PyError CursorCls :=
  if pyStartsWith cursor "skip" then .ok .skip
  else if pyStartsWith cursor "keys" then .ok .keyset
  else .error .notImplementedError

/-- cursor_value_input (features/cursor/skiplimit.py): with no raw cursor,
    pick the class by pagination_possible; otherwise dispatch and decode. -/
def cursor_value_input (b85decode : String → Except PyError String)
    (jsonLoads : String → Except PyError JValue)
    (page : Option String) (keyset_possible : Bool) :
    Except PyError (CursorCls × Option CursorValue) :=
  match page with
  | none => .ok (if keyset_possible then .keyset else .skip, none)
  | some raw => do
    let cls ← get_cursor_impl raw
    let v ← match cls with
      | .skip => skipCursorData_decode b85decode jsonLoads raw
      | .keyset => keysetCursorData_decode b85decode jsonLoads raw
    return (cls, some v)

/-- The cursor-parsing step of CursorLimitOperation.for_query
    (features/cursor/skiplimit.py): any exception is caught and re-raised as
    QueryObjectError. -/
def for_query_parse_cursor (b85decode : String → Except PyError String)
    (jsonLoads : String → Except PyError JValue)
    (page : Option String) (keyset_possible : Bool) :
    Except PyError (CursorCls × Option CursorValue) :=
  match cursor_value_input b85decode jsonLoads page keyset_possible with
  | .ok x => .ok x
  | .error _ => .error (.queryObjectError "The provided cursor is invalid")

/-! ## engine/jselectinloader.py (C6) -/

/-- The value assigned to a relation key by _load_via_child. -/
inductive RelValue (T : Type) where
  | one : Option T → RelValue T
  | many : List (Option T) → RelValue T
  deriving Repr, DecidableEq

/-- A parent row as seen by JSelectInLoader: a loaded foreign-key tuple (none
    components model SQL NULL) and the relation slot; rel = none means the
    relation key was never assigned. -/
structure ParentState (T : Type) where
  fk : List (Option Int)
  rel : Option (RelValue T)
  deriving Repr, DecidableEq

/-- defaultdict(list) append: an existing key keeps its position and grows its
    list; a new key is appended. -/
def dictAppend (d : List (List (Option Int) × List Nat)) (k : List (Option Int))
    (i : Nat) : List (List (Option Int) × List Nat) :=
  if (d.map Prod.fst).contains k then
    d.map (fun kv => if kv.1 = k then (kv.1, kv.2 ++ [i]) else kv)
  else d ++ [(k, [i])]

/-- JSelectInLoader.prepare_states, load_only_child (MANYTOONE) branch
    (engine/jselectinloader.py): group parent-row indices by FK tuple; a row
    whose tuple has a None component goes to none_states. -/
def prepare_states_child {T : Type} (states : List (ParentState T)) :
    List (List (Option Int) × List Nat) × List Nat :=
  states.enum.foldl (fun acc p =>
    let related_ident := p.2.fk
    if !related_ident.contains none then (dictAppend acc.1 related_ident p.1, acc.2)
    else (acc.1, acc.2 ++ [p.1])) ([], [])

/-- Python comparison of int tuples (keys compared here never contain None). -/
def optIntLt : Option Int → Option Int → Bool
  | none, none => false
  | none, some _ => true
  | some _, none => false
  | some x, some y => x < y

/-- Lexicographic order on FK tuples, for sorted(our_states). -/
def fkLt : List (Option Int) → List (Option Int) → Bool
  | [], [] => false
  | [], _ :: _ => true
  | _ :: _, [] => false
  | a :: as, b :: bs => if a = b then fkLt as bs else optIntLt a b

/-- Stable insertion used to model Python sorted(). -/
def insertSorted {α : Type} (lt : α → α → Bool) (x : α) : List α → List α
  | [] => [x]
  | y :: ys => if lt x y then x :: y :: ys else y :: insertSorted lt x ys

/-- Python sorted() with a strict comparison (all keys are distinct here). -/
def sortBy {α : Type} (lt : α → α → Bool) (l : List α) : List α :=
  l.foldr (insertSorted lt) []

/-- Chunk size of JSelectInLoader (SelectInLoader._chunksize). -/
def CHUNKSIZE : Nat := 500

/-- Assign the relation slot of the state at the given index. -/
def setRel {T : Type} (states : List (ParentState T)) (i : Nat) (v : RelValue T) :
    List (ParentState T) :=
  states.enum.map (fun p => if p.1 = i then ⟨p.2.fk, some v⟩ else p.2)

/-- The bucket of parent-state indices for a FK key. -/
def fkBucket (d : List (List (Option Int) × List Nat)) (k : List (Option Int)) :
    List Nat :=
  ((d.find? (fun kv => kv.1 = k)).map (·.2)).getD []

/-- JSelectInLoader._load_via_child (engine/jselectinloader.py): process the
    sorted keys in chunks of CHUNKSIZE; for each chunk, query the child table
    (db maps an FK tuple to its unique child row, modelling the executed
    SELECT and data.get), populate the matching states, and then populate the
    none_states with None: in the source this none_states loop sits inside
    the while loop over the chunks. The fuel argument is the initial number of
    keys, which bounds the number of chunks. Returns the final states and the
    key list of every issued query. -/
def load_via_child_loop {T : Type} (db : List (Option Int) → Option T)
    (uselist : Bool) (our_states : List (List (Option Int) × List Nat))
    (none_states : List Nat) :
    Nat → List (List (Option Int)) → List (ParentState T) →
    List (ParentState T) × List (List (List (Option Int)))
  | _, [], states => (states, [])
  | 0, _ :: _, states => (states, [])
  | fuel + 1, our_keys@(_ :: _), states =>
    let chunk := our_keys.take CHUNKSIZE
    let rest := our_keys.drop CHUNKSIZE
    let states := chunk.foldl (fun sts key =>
      let related_obj := db key
      let value : RelValue T := if !uselist then .one related_obj
        else .many [related_obj]
      (fkBucket our_states key).foldl (fun sts2 i => setRel sts2 i value) sts) states
    let states := none_states.foldl (fun sts i => setRel sts i (.one none)) states
    let r := load_via_child_loop db uselist our_states none_states fuel rest states
    (r.1, chunk :: r.2)

/-- prepare_states followed by _load_via_child: the full MANYTOONE loading
    pipeline of JSelectInLoader for one batch of parent rows. -/
def jselectin_load_child {T : Type} (db : List (Option Int) → Option T)
    (uselist : Bool) (states : List (ParentState T)) :
    List (ParentState T) × List (List (List (Option Int))) :=
  let prep := prepare_states_child states
  let our_keys := sortBy fkLt (prep.1.map Prod.fst)
  load_via_child_loop db uselist prep.1 prep.2 our_keys.length our_keys states

/-! ## operations/select.py and util/sacompat.py (C7) -/

/-- A selected field as the Select operation sees it after resolution: a plain
    column, or a property with its loaded column names. -/
structure CSelectedField where
  name : String
  is_property : Bool
  property_loads : List String
  deriving Repr, DecidableEq

/-- A selected relation: the local (foreign-key) columns it needs loaded. -/
structure CSelectedRelation where
  local_columns : List String
  deriving Repr, DecidableEq

/-- add_columns_if_missing (util/sacompat.py): drop columns already in the
    statement, deduplicate the rest by key, and append. -/
def add_columns_if_missing (stmt : List String) (columns : List String) :
    List String :=
  let new_columns := columns.filter (fun col => !stmt.contains col)
  let columns_to_add := dedupFirst new_columns
  stmt ++ columns_to_add

/-- SelectOperation.compile_columns with select_fields and
    select_local_columns_for_relations (operations/select.py): columns that the
    user selected (a property contributes the columns it loads) plus the local
    columns required by selected relations. -/
def compile_columns (fields : List CSelectedField)
    (relations : List CSelectedRelation) : List String :=
  (fields.flatMap fun f => if f.is_property then f.property_loads else [f.name]) ++
  (relations.flatMap fun r => r.local_columns)

/-- SelectOperation.apply_to_statement (operations/select.py): add the compiled
    columns; if none were selected at all, add the primary key columns. -/
def select_apply_to_statement (fields : List CSelectedField)
    (relations : List CSelectedRelation) (primary_key : List String)
    (stmt : List String) : List String :=
  let selected_columns := compile_columns fields relations
  let stmt := add_columns_if_missing stmt selected_columns
  if selected_columns.isEmpty then add_columns_if_missing stmt primary_key
  else stmt

/-! ## integration/fastapi/query_object.py (C8) -/

/-- ArgumentValueError (integration/fastapi/query_object.py). -/
structure ArgumentValueError where
  argument_name : String
  error : String
  deriving Repr, DecidableEq

/-- Python truthiness of an optional string parameter. -/
def strNotSupplied : Option String → Bool
  | none => true
  | some s => s = ""

/-- Python truthiness of an optional int parameter. -/
def intNotSupplied : Option Int → Bool
  | none => true
  | some n => n = 0

/-- parse_serialized_argument applied to an optional parameter: None passes
    through; parse_arg stands for the yaml or json deserializer. -/
def parse_serialized_argument_opt
    (parse_arg : String → String → Except ArgumentValueError JValue)
    (nm : String) : Option String → Except ArgumentValueError (Option JValue)
  | none => .ok none
  | some s => (parse_arg nm s).map some

/-- query_object (integration/fastapi/query_object.py): return None when the
    emptiness check passes (the check reads select, filter, sort, skip, limit
    and never consults join); otherwise assemble the Query Object dict from
    select, filter, sort, skip, limit (the join line is commented out in the
    source) and parse it; an ArgumentValueError is wrapped into
    QueryObjectError naming the parameter. -/
def fastapi_query_object
    (parse_arg : String → String → Except ArgumentValueError JValue)
    (select join filter sort : Option String) (skip limit : Option Int) :
    Except QOErr (Option QueryObject) :=
  if strNotSupplied select && strNotSupplied filter && strNotSupplied sort &&
      intNotSupplied skip && intNotSupplied limit then
    .ok none
  else
    let assembled : Except ArgumentValueError (List (String × JValue)) := do
      let selV ← parse_serialized_argument_opt parse_arg "select" select
      let filterV ← parse_serialized_argument_opt parse_arg "filter" filter
      let sortV ← parse_serialized_argument_opt parse_arg "sort" sort
      return [
        ("select", selV.getD .jnull),
        ("filter", filterV.getD .jnull),
        ("sort", sortV.getD .jnull),
        ("skip", optIntToJ skip),
        ("limit", optIntToJ limit)]
    match assembled with
    | .error e => .error (.queryObjectError
        ("Query Object " ++ e.argument_name ++ " parsing failed: " ++ e.error))
    | .ok d => (queryObject_from_query_object d).map some

/-! ## operations/skiplimit.py and engine/settings.py (C10) -/

/-- Python truthiness of an optional int (0 and None are both falsy). -/
def truthyInt : Option Int → Bool
  | none => false
  | some n => n ≠ 0

/-- SkipLimitOperation._apply_simple_skiplimit_pagination
    (operations/skiplimit.py): offset only under `if skip:`, limit only under
    `if limit:`. -/
def apply_simple_skiplimit_pagination (skip limit : Option Int)
    (stmt : StmtPagination) : StmtPagination :=
  let stmt := if truthyInt skip then { stmt with offset := skip } else stmt
  if truthyInt limit then { stmt with limit := limit } else stmt

/-- QuerySettings.get_final_limit (engine/settings.py): a falsy limit is
    replaced by default_limit; a truthy result is capped by max_limit. -/
def get_final_limit (default_limit max_limit : Option Int) (limit : Option Int) :
    Option Int :=
  let limit := if truthyInt limit then limit else default_limit
  if truthyInt limit && truthyInt max_limit then
    some (min (limit.getD 0) (max_limit.getD 0))
  else limit

/-! ## the canonical Query Object dict shapes (claim C1) -/

/-- A sort entry in the canonical form that the sort exporter produces: an
    explicit direction suffix and a canonical dot path (parsing it and
    exporting it gives the entry back). -/
def canonicalSortStr (s : String) : Bool :=
  (SortQuery.parse_input_field s).export = s

/-- A field reference in canonical dot-path form (parsing it and exporting it
    gives the reference back). -/
def dotRoundtrip (s : String) : Bool :=
  exportFieldExpression (parse_dot_path s).1 (parse_dot_path s).2 = s

mutual

/-- Canonical filter entries: distinct keys, each entry canonical. -/
def canonicalFilterEntries : List (String × JValue) → Bool
  | [] => true
  | (k, v) :: rest =>
    canonicalFilterEntry k v && canonicalFilterEntries rest &&
      !(rest.map Prod.fst).contains k

/-- A canonical filter entry: a boolean operator other than $not applied to a
    canonical condition list, or a field in canonical dot-path form with a
    one-operator object value. -/
def canonicalFilterEntry (k : String) (v : JValue) : Bool :=
  if pyStartsWith k "$" then
    (k ≠ "$not" : Bool) &&
    (match v with
     | .jarr l => canonicalConditionList l
     | _ => false)
  else
    dotRoundtrip k &&
    (match v with
     | .jobj [_] => true
     | _ => false)

/-- A canonical boolean operand list: every condition is a one-entry object
    whose entry is itself canonical. -/
def canonicalConditionList : List JValue → Bool
  | [] => true
  | .jobj [(k2, v2)] :: rest =>
    canonicalFilterEntry k2 v2 && canonicalConditionList rest
  | _ => false

end

/-- The canonical Query Object dicts of the amended claim C1: only documented
    keys, each present value in the shape its exporter reproduces (sort with
    explicit directions, filter in explicit single-operator form, select only
    distinct field names, join an object of canonical nested query dicts, skip
    and limit null or ints, before and after arbitrary). -/
inductive CanonicalQO : List (String × JValue) → Prop where
  | intro (d : List (String × JValue)) (ss : List String)
      (joinEntries fkvs : List (String × JValue)) (sorts : List String)
      (hnodup : (d.map Prod.fst).Nodup)
      (hkeys : ∀ k ∈ d.map Prod.fst,
        k ∈ (["select", "join", "filter", "sort",
              "skip", "limit", "before", "after"] : List String))
      (hsel : jget d "select" = none ∧ ss = [] ∨
        jget d "select" = some (.jarr (ss.map .jstr)))
      (hselnd : ss.Nodup)
      (hjoin : jget d "join" = none ∧ joinEntries = [] ∨
        jget d "join" = some (.jobj joinEntries))
      (hjnd : (joinEntries.map Prod.fst).Nodup)
      (hjobj : ∀ p ∈ joinEntries, ∃ sub, p.2 = JValue.jobj sub)
      (hfil : jget d "filter" = none ∧ fkvs = [] ∨
        jget d "filter" = some (.jobj fkvs))
      (hfc : canonicalFilterEntries fkvs = true)
      (hsort : jget d "sort" = none ∧ sorts = [] ∨
        jget d "sort" = some (.jarr (sorts.map .jstr)))
      (hsortc : ∀ s ∈ sorts, canonicalSortStr s = true)
      (hskip : ∀ v, jget d "skip" = some v → v = .jnull ∨ ∃ i : Int, v = .jint i)
      (hlimit : ∀ v, jget d "limit" = some v → v = .jnull ∨ ∃ i : Int, v = .jint i)
      (hrec : ∀ p sub, p ∈ joinEntries → p.2 = JValue.jobj sub → CanonicalQO sub) :
      CanonicalQO d

/-! ## concrete stand-ins used by witnesses -/

/-- A concrete canonical Query Object dict: select, a nested join with a
    canonical sort, a filter with one operator condition, and an integer skip. -/
def c1CanonicalInput : List (String × JValue) :=
  [("select", .jarr [.jstr "a"]),
   ("join", .jobj [("r", .jobj [("sort", .jarr [.jstr "id-"])])]),
   ("filter", .jobj [("age", .jobj [("$gt", .jint 18)])]),
   ("skip", .jint 5)]

/-- A base85 decoder stand-in that rejects every input. -/
def b85fail : String → Except PyError String := fun _ => .error .binasciiError

/-- A JSON decoder stand-in that accepts every input as null. -/
def jsonNull : String → Except PyError JValue := fun _ => .ok .jnull

/-- A request-parameter deserializer stand-in that accepts every input as null. -/
def parse_arg_stub : String → String → Except ArgumentValueError JValue :=
  fun _ _ => .ok .jnull

/-! # Theorems -/

/-! ## helper lemmas -/

theorem mem_dedupFirst_aux (l : List String) (acc : List String) (x : String) :
    x ∈ l.foldl (fun acc k => if acc.contains k then acc else acc ++ [k]) acc ↔
      x ∈ acc ∨ x ∈ l := by
  induction l generalizing acc with
  | nil => simp
  | cons k rest ih =>
    simp only [List.foldl_cons, ih]
    by_cases hk : acc.contains k
    · simp only [hk, if_true]
      constructor
      · rintro (h | h)
        · exact Or.inl h
        · exact Or.inr (List.mem_cons_of_mem _ h)
      · rintro (h | h)
        · exact Or.inl h
        · rcases List.mem_cons.mp h with h | h
          · subst h
            exact Or.inl (by simpa using hk)
          · exact Or.inr h
    · simp only [hk, if_false]
      constructor
      · rintro (h | h)
        · rcases List.mem_append.mp h with h | h
          · exact Or.inl h
          · simp only [List.mem_singleton] at h
            subst h
            exact Or.inr (List.mem_cons_self _ _)
        · exact Or.inr (List.mem_cons_of_mem _ h)
      · rintro (h | h)
        · exact Or.inl (List.mem_append.mpr (Or.inl h))
        · rcases List.mem_cons.mp h with h | h
          · exact Or.inl (List.mem_append.mpr (Or.inr (by simp [h])))
          · exact Or.inr h

theorem mem_dedupFirst (l : List String) (x : String) :
    x ∈ dedupFirst l ↔ x ∈ l := by
  unfold dedupFirst
  rw [mem_dedupFirst_aux]
  simp

theorem mem_add_columns_if_missing (stmt cols : List String) (c : String)
    (hc : c ∈ cols) : c ∈ add_columns_if_missing stmt cols := by
  unfold add_columns_if_missing
  by_cases hs : c ∈ stmt
  · exact List.mem_append.mpr (Or.inl hs)
  · refine List.mem_append.mpr (Or.inr ?_)
    rw [mem_dedupFirst]
    refine List.mem_filter.mpr ⟨hc, ?_⟩
    simp [hs]

theorem dedup_length_one {α : Type} [DecidableEq α] (l : List α) (hl : l ≠ []) :
    l.dedup.length = 1 ↔ ∀ x ∈ l, ∀ y ∈ l, x = y := by
  constructor
  · intro h x hx y hy
    rcases List.length_eq_one.mp h with ⟨a, ha⟩
    have hxa : x = a := by
      have := List.mem_dedup.mpr hx
      rw [ha] at this
      simpa using this
    have hya : y = a := by
      have := List.mem_dedup.mpr hy
      rw [ha] at this
      simpa using this
    rw [hxa, hya]
  · intro h
    rcases List.exists_mem_of_ne_nil l hl with ⟨a, ha⟩
    have hd : l.dedup = [a] := by
      have hnd := l.nodup_dedup
      have hmem : a ∈ l.dedup := List.mem_dedup.mpr ha
      rcases hq : l.dedup with _ | ⟨b, rest⟩
      · rw [hq] at hmem
        simp at hmem
      · have hb : b ∈ l := List.mem_dedup.mp (by rw [hq]; exact List.mem_cons_self _ _)
        have hrest : rest = [] := by
          rcases rest with _ | ⟨c, rest2⟩
          · rfl
          · exfalso
            have hcmem : c ∈ l := List.mem_dedup.mp (by rw [hq]; simp)
            have hbc : b = c := (h b hb c hcmem)
            rw [hq] at hnd
            simp [hbc] at hnd
        rw [hrest]
        have : b = a := h b hb a ha
        rw [this]
    rw [hd]
    rfl

/-! ## size lemmas for the fuel bounds (claim C1) -/

theorem jsize_pos (v : JValue) : 1 ≤ jsize v := by
  cases v <;> simp [jsize]

theorem jsizeO_pos (d : List (String × JValue)) : 1 ≤ jsizeO d := by
  cases d with
  | nil => simp [jsizeO]
  | cons p rest =>
    simp only [jsizeO]
    omega

theorem jsizeL_pos (l : List JValue) : 1 ≤ jsizeL l := by
  cases l with
  | nil => simp [jsizeL]
  | cons v rest =>
    simp only [jsizeL]
    omega

theorem jget_size_le (d : List (String × JValue)) (k : String) (v : JValue)
    (h : jget d k = some v) : jsize v + 3 ≤ jsizeO d := by
  induction d with
  | nil => simp [jget] at h
  | cons p rest ih =>
    by_cases hpk : p.1 = k
    · simp [jget, List.find?_cons, hpk] at h
      have hpos := jsizeO_pos rest
      simp only [jsizeO, ← h]
      omega
    · simp only [jget, List.find?_cons] at h
      rw [show (decide (p.1 = k)) = false by simpa using hpk] at h
      have := ih (by simpa [jget] using h)
      have hvp := jsize_pos p.2
      simp only [jsizeO]
      omega

theorem jget_pair_size_le (d : List (String × JValue)) (k1 k2 : String)
    (v1 v2 : JValue) (hne : k1 ≠ k2) (h1 : jget d k1 = some v1)
    (h2 : jget d k2 = some v2) : jsize v1 + jsize v2 + 5 ≤ jsizeO d := by
  induction d with
  | nil => simp [jget] at h1
  | cons p rest ih =>
    by_cases hp1 : p.1 = k1
    · simp [jget, List.find?_cons, hp1] at h1
      have hp2 : ¬(p.1 = k2) := by rw [hp1]; exact hne
      simp only [jget, List.find?_cons] at h2
      rw [show (decide (p.1 = k2)) = false by simpa using hp2] at h2
      have := jget_size_le rest k2 v2 (by simpa [jget] using h2)
      simp only [jsizeO, ← h1]
      omega
    · simp only [jget, List.find?_cons] at h1
      rw [show (decide (p.1 = k1)) = false by simpa using hp1] at h1
      by_cases hp2 : p.1 = k2
      · simp [jget, List.find?_cons, hp2] at h2
        have := jget_size_le rest k1 v1 (by simpa [jget] using h1)
        simp only [jsizeO, ← h2]
        omega
      · simp only [jget, List.find?_cons] at h2
        rw [show (decide (p.1 = k2)) = false by simpa using hp2] at h2
        have := ih (by simpa [jget] using h1) (by simpa [jget] using h2)
        have hvp := jsize_pos p.2
        simp only [jsizeO]
        omega

theorem mem_jsizeO_le (entries : List (String × JValue)) (p : String × JValue)
    (hp : p ∈ entries) : jsize p.2 + 3 ≤ jsizeO entries := by
  induction entries with
  | nil => cases hp
  | cons q rest ih =>
    rcases List.mem_cons.mp hp with h | h
    · subst h
      have := jsizeO_pos rest
      simp [jsizeO]
      omega
    · have := ih h
      simp only [jsizeO]
      have := jsize_pos q.2
      omega

/-! ## dict-building identities (claim C1) -/

theorem dedupFirst_aux_nodup (l acc : List String)
    (hdisj : ∀ x ∈ l, x ∉ acc) (hnd : l.Nodup) :
    l.foldl (fun acc k => if acc.contains k then acc else acc ++ [k]) acc =
      acc ++ l := by
  induction l generalizing acc with
  | nil => simp
  | cons k rest ih =>
    simp only [List.foldl_cons]
    have hk : acc.contains k = false := by
      have := hdisj k (List.mem_cons_self _ _)
      simpa using this
    rw [hk]
    simp only [Bool.false_eq_true, if_false]
    rw [ih (acc ++ [k])]
    · simp
    · intro x hx
      intro hmem
      rcases List.mem_append.mp hmem with h | h
      · exact hdisj x (List.mem_cons_of_mem _ hx) h
      · simp only [List.mem_singleton] at h
        subst h
        exact (List.nodup_cons.mp hnd).1 hx
    · exact (List.nodup_cons.mp hnd).2

theorem dedupFirst_nodup_id (l : List String) (h : l.Nodup) : dedupFirst l = l := by
  unfold dedupFirst
  rw [dedupFirst_aux_nodup l [] (by simp) h]
  simp

theorem dictUpdate_append_new {α : Type} (acc : List (String × α)) (k : String)
    (v : α) (hk : k ∉ acc.map Prod.fst) :
    dictUpdate acc [(k, v)] = acc ++ [(k, v)] := by
  simp only [dictUpdate, List.foldl_cons, List.foldl_nil]
  rw [show (acc.map Prod.fst).contains k = false by simpa using hk]
  simp

theorem dictUpdate_nodup_id {α : Type} (ps acc : List (String × α))
    (hdisj : ∀ p ∈ ps, p.1 ∉ acc.map Prod.fst)
    (hnd : (ps.map Prod.fst).Nodup) :
    dictUpdate acc ps = acc ++ ps := by
  induction ps generalizing acc with
  | nil => simp [dictUpdate]
  | cons p rest ih =>
    rw [List.map_cons, List.nodup_cons] at hnd
    obtain ⟨hhd, htl⟩ := hnd
    have hstep : dictUpdate acc (p :: rest) = dictUpdate (acc ++ [p]) rest := by
      simp only [dictUpdate, List.foldl_cons]
      rw [show (acc.map Prod.fst).contains p.1 = false by
        simpa using hdisj p (List.mem_cons_self _ _)]
      simp
    rw [hstep, ih (acc ++ [p])]
    · simp
    · intro q hq hmem
      simp only [List.map_append, List.mem_append] at hmem
      rcases hmem with h | h
      · exact hdisj q (List.mem_cons_of_mem _ hq) h
      · simp only [List.map_cons, List.map_nil, List.mem_singleton] at h
        exact hhd (h ▸ List.mem_map_of_mem Prod.fst hq)
    · exact htl

theorem pyDictOf_nodup_id {α : Type} (ps : List (String × α))
    (h : (ps.map Prod.fst).Nodup) : pyDictOf ps = ps := by
  unfold pyDictOf
  rw [dictUpdate_nodup_id ps [] (by simp) h]
  simp

theorem foldl_update_singletons (conds : List FilterExpr)
    (kvs : List (String × JValue)) (acc : List (String × JValue))
    (hf : List.Forall₂ (fun c kv => FilterExpr.export c = [kv]) conds kvs)
    (hdisj : ∀ kv ∈ kvs, kv.1 ∉ acc.map Prod.fst)
    (hnd : (kvs.map Prod.fst).Nodup) :
    conds.foldl (fun res c => dictUpdate res c.export) acc = acc ++ kvs := by
  induction hf generalizing acc with
  | nil => simp
  | cons hckv hrest ih =>
    rename_i c kv conds2 kvs2
    rw [List.map_cons, List.nodup_cons] at hnd
    obtain ⟨hhd, htl⟩ := hnd
    simp only [List.foldl_cons]
    have hkvpair : dictUpdate acc [(kv.1, kv.2)] = acc ++ [(kv.1, kv.2)] :=
      dictUpdate_append_new acc kv.1 kv.2 (hdisj kv (List.mem_cons_self _ _))
    rw [hckv, show ([kv] : List (String × JValue)) = [(kv.1, kv.2)] by simp,
      hkvpair]
    rw [ih (acc ++ [(kv.1, kv.2)])]
    · simp
    · intro kv2 hkv2 hmem
      simp only [List.map_append, List.mem_append] at hmem
      rcases hmem with h | h
      · exact hdisj kv2 (List.mem_cons_of_mem _ hkv2) h
      · simp only [List.map_cons, List.map_nil, List.mem_singleton] at h
        exact hhd (h ▸ List.mem_map_of_mem Prod.fst hkv2)
    · exact htl

/-! ## normalizeQO is fuel-irrelevant (claim C1) -/

theorem normalizeQO_fuel_irrel (n : Nat) :
    ∀ (d : List (String × JValue)) (m : Nat), jsizeO d ≤ n → jsizeO d ≤ m →
      normalizeQO n d = normalizeQO m d := by
  induction n using Nat.strong_induction_on with
  | _ n ih =>
    intro d m hn hm
    obtain ⟨n2, rfl⟩ : ∃ n2, n = n2 + 1 := ⟨n - 1, by have := jsizeO_pos d; omega⟩
    obtain ⟨m2, rfl⟩ : ∃ m2, m = m2 + 1 := ⟨m - 1, by have := jsizeO_pos d; omega⟩
    simp only [normalizeQO]
    have hjoin : (match (jget d "join").getD (.jobj []) with
        | .jobj entries => JValue.jobj (entries.map fun (p : String × JValue) =>
            (p.1, match p.2 with | .jobj sub => normalizeQO n2 sub | other => other))
        | other => other) =
        (match (jget d "join").getD (.jobj []) with
        | .jobj entries => JValue.jobj (entries.map fun (p : String × JValue) =>
            (p.1, match p.2 with | .jobj sub => normalizeQO m2 sub | other => other))
        | other => other) := by
      cases hj : jget d "join" with
      | none => simp
      | some v =>
        cases v with
        | jobj entries =>
          have hEsz : jsizeO entries + 4 ≤ jsizeO d := by
            have := jget_size_le d "join" _ hj
            simp only [jsize] at this
            omega
          simp only [Option.getD]
          refine congrArg JValue.jobj (List.map_congr_left ?_)
          intro p hp
          cases hp2 : p.2 with
          | jobj sub =>
            have hSsz : jsizeO sub + 4 ≤ jsizeO entries := by
              have := mem_jsizeO_le entries p hp
              rw [hp2] at this
              simp only [jsize] at this
              omega
            simp only
            rw [ih n2 (by omega) sub m2 (by omega) (by omega)]
          | jnull => rfl
          | jbool b => rfl
          | jint i => rfl
          | jstr s => rfl
          | jarr l => rfl
        | jnull => rfl
        | jbool b => rfl
        | jint i => rfl
        | jstr s => rfl
        | jarr l => rfl
    rw [hjoin]

/-! ## sort roundtrip (claim C1) -/

theorem sort_parse_strings (ss : List String) :
    SortQuery.from_query_object (.jarr (ss.map .jstr)) =
      .ok (ss.map SortQuery.parse_input_field) := by
  induction ss with
  | nil => rfl
  | cons s rest ih =>
    simp only [SortQuery.from_query_object, List.map_cons] at ih ⊢
    simp [sort_items_parse, ih]

theorem sort_export_canonical (ss : List String)
    (h : ∀ s ∈ ss, canonicalSortStr s = true) :
    SortQuery.export (ss.map SortQuery.parse_input_field) = ss := by
  unfold SortQuery.export
  rw [List.map_map]
  have heach : ∀ s ∈ ss,
      (SortingField.export ∘ SortQuery.parse_input_field) s = id s := by
    intro s hs
    have := h s hs
    simpa [canonicalSortStr] using this
  rw [List.map_congr_left heach, List.map_id]

/-! ## filter roundtrip (claim C1) -/

mutual

theorem filter_entry_roundtrip : ∀ (k : String) (v : JValue),
    canonicalFilterEntry k v = true →
    ∃ c : FilterExpr,
      (if pyStartsWith k "$" then
        FilterQuery.parse_input_boolean_expression k v = .ok c
       else FilterQuery.parse_input_field_expressions k v = [c]) ∧
      c.export = [(k, v)]
  | k, v, h => by
    unfold canonicalFilterEntry at h
    by_cases hd : pyStartsWith k "$"
    · rw [if_pos hd] at h
      simp only [Bool.and_eq_true, decide_eq_true_eq] at h
      obtain ⟨hknot, hv⟩ := h
      cases v with
      | jarr l =>
        obtain ⟨cs, hcs, hexp⟩ := condition_list_roundtrip l hv
        refine ⟨.boolean k cs, ?_, ?_⟩
        · rw [if_pos hd]
          unfold FilterQuery.parse_input_boolean_expression
          rw [if_neg hknot]
          dsimp only
          rw [hcs]
        · simp [FilterExpr.export, hexp]
      | jnull => cases hv
      | jbool b => cases hv
      | jint i => cases hv
      | jstr s => cases hv
      | jobj kvs => cases hv
    · rw [if_neg hd] at h
      simp only [Bool.and_eq_true] at h
      obtain ⟨hdot, hv⟩ := h
      cases v with
      | jobj kvs =>
        cases kvs with
        | nil => cases hv
        | cons p rest =>
          cases rest with
          | nil =>
            refine ⟨.field (parse_dot_path k).1 (parse_dot_path k).2 p.1 p.2,
              ?_, ?_⟩
            · rw [if_neg hd]
              simp [FilterQuery.parse_input_field_expressions]
            · simp only [FilterExpr.export]
              have hk : exportFieldExpression (parse_dot_path k).1
                  (parse_dot_path k).2 = k := by
                simpa [dotRoundtrip] using hdot
              rw [hk]
          | cons q rest2 => cases hv
      | jnull => cases hv
      | jbool b => cases hv
      | jint i => cases hv
      | jstr s => cases hv
      | jarr l => cases hv

theorem condition_list_roundtrip : ∀ (l : List JValue),
    canonicalConditionList l = true →
    ∃ cs : List FilterExpr, FilterQuery.parse_condition_list l = .ok cs ∧
      FilterExpr.exportClauses cs = l
  | [], _ => ⟨[], rfl, rfl⟩
  | .jobj [(k2, v2)] :: rest, h => by
    unfold canonicalConditionList at h
    simp only [Bool.and_eq_true] at h
    obtain ⟨h1, h2⟩ := h
    obtain ⟨e, he, hee⟩ := filter_entry_roundtrip k2 v2 h1
    obtain ⟨cs, hcs, hce⟩ := condition_list_roundtrip rest h2
    have hnil : FilterQuery.parse_input_fields [] = .ok [] := rfl
    have hsingle : FilterQuery.parse_input_fields [(k2, v2)] = .ok [e] := by
      unfold FilterQuery.parse_input_fields
      by_cases hd2 : pyStartsWith k2 "$"
      · rw [if_pos hd2] at he
        simp [hd2, he, hnil]
      · rw [if_neg hd2] at he
        simp [hd2, he, hnil]
    refine ⟨e :: cs, ?_, ?_⟩
    · unfold FilterQuery.parse_condition_list
      dsimp only
      rw [hsingle, hcs]
      rfl
    · simp [FilterExpr.exportClauses, hee, hce]
  | .jnull :: rest, h => nomatch h
  | .jbool b :: rest, h => nomatch h
  | .jint i :: rest, h => nomatch h
  | .jstr s :: rest, h => nomatch h
  | .jarr l2 :: rest, h => nomatch h
  | .jobj [] :: rest, h => nomatch h
  | .jobj (p :: q :: r2) :: rest, h => nomatch h

theorem filter_entries_roundtrip : ∀ (kvs : List (String × JValue)),
    canonicalFilterEntries kvs = true →
    ∃ conds : List FilterExpr, FilterQuery.parse_input_fields kvs = .ok conds ∧
      List.Forall₂ (fun c kv => FilterExpr.export c = [kv]) conds kvs
  | [], _ => ⟨[], rfl, .nil⟩
  | (k, v) :: rest, h => by
    unfold canonicalFilterEntries at h
    simp only [Bool.and_eq_true] at h
    obtain ⟨⟨hkv, hrest⟩, hnotin⟩ := h
    obtain ⟨e, he, hee⟩ := filter_entry_roundtrip k v hkv
    obtain ⟨cs, hcs, hf2⟩ := filter_entries_roundtrip rest hrest
    by_cases hd : pyStartsWith k "$"
    · rw [if_pos hd] at he
      refine ⟨e :: cs, ?_, .cons hee hf2⟩
      unfold FilterQuery.parse_input_fields
      simp [hd, he, hcs]
    · rw [if_neg hd] at he
      refine ⟨e :: cs, ?_, .cons hee hf2⟩
      unfold FilterQuery.parse_input_fields
      simp [hd, he, hcs]

end

/-! ## parser lemmas for canonical dicts (claim C1) -/

theorem canonicalFilterEntries_keys_nodup :
    ∀ (kvs : List (String × JValue)), canonicalFilterEntries kvs = true →
      (kvs.map Prod.fst).Nodup
  | [], _ => List.nodup_nil
  | (k, v) :: rest, h => by
    unfold canonicalFilterEntries at h
    simp only [Bool.and_eq_true] at h
    obtain ⟨⟨_, hrest⟩, hnotin⟩ := h
    rw [List.map_cons, List.nodup_cons]
    refine ⟨?_, canonicalFilterEntries_keys_nodup rest hrest⟩
    simpa using hnotin

theorem export_join_map (rels : List (String × QueryObject)) :
    QueryObject.export_join rels = rels.map (fun r => (r.1, r.2.dict)) := by
  induction rels with
  | nil => rfl
  | cons r rest ih =>
    obtain ⟨nm, q⟩ := r
    simp [QueryObject.export_join, ih]

theorem parseRelationEntries_ok (entries : List (String × JValue))
    (rels : List (String × QueryObject))
    (hf : List.Forall₂ (fun (p : String × JValue) (r : String × QueryObject) =>
      p.1 = r.1 ∧ ∃ sub, p.2 = JValue.jobj sub ∧
        (∀ m, jsizeO sub + 5 ≤ m → parseQO m sub = .ok r.2)) entries rels) :
    ∀ n, jsizeO entries + 2 ≤ n → parseRelationEntries n entries = .ok rels := by
  induction hf with
  | nil =>
    intro n hn
    obtain ⟨n2, rfl⟩ : ∃ n2, n = n2 + 1 := ⟨n - 1, by simp [jsizeO] at hn; omega⟩
    rfl
  | cons hpr hrest ih =>
    rename_i p r entries2 rels2
    intro n hn
    obtain ⟨hnm, sub, hsub, hparse⟩ := hpr
    obtain ⟨nm, q⟩ := p
    obtain ⟨rn, rq⟩ := r
    simp only at hnm hsub
    subst hnm
    subst hsub
    have hsz : jsizeO ((nm, JValue.jobj sub) :: entries2) =
        2 + (1 + jsizeO sub) + jsizeO entries2 := by
      simp [jsizeO, jsize]
    have hrpos := jsizeO_pos entries2
    have hspos := jsizeO_pos sub
    obtain ⟨n2, rfl⟩ : ∃ n2, n = n2 + 1 := ⟨n - 1, by omega⟩
    unfold parseRelationEntries
    dsimp only
    rw [hparse n2 (by omega), ih n2 (by omega)]
    rfl

theorem parseSelectItems_ok (joinEntries : List (String × JValue))
    (rels : List (String × QueryObject))
    (hrel : ∀ m, jsizeO joinEntries + 2 ≤ m →
      parseRelationEntries m joinEntries = .ok rels) :
    ∀ (ss : List String) (n : Nat),
      ss.length + jsizeO joinEntries + 3 ≤ n →
      parseSelectItems n (ss.map .jstr ++ [.jobj joinEntries]) = .ok (ss, rels) := by
  intro ss
  induction ss with
  | nil =>
    intro n hn
    have hjpos := jsizeO_pos joinEntries
    obtain ⟨n2, rfl⟩ : ∃ n2, n = n2 + 1 := ⟨n - 1, by omega⟩
    simp only [List.map_nil, List.nil_append]
    unfold parseSelectItems
    rw [hrel n2 (by omega)]
    obtain ⟨n3, rfl⟩ : ∃ n3, n2 = n3 + 1 := ⟨n2 - 1, by omega⟩
    simp [bind, Except.bind, pure, Except.pure,
      show parseSelectItems (n3 + 1) ([] : List JValue) = .ok ([], []) from rfl]
  | cons s rest ih =>
    intro n hn
    have hjpos := jsizeO_pos joinEntries
    obtain ⟨n2, rfl⟩ : ∃ n2, n = n2 + 1 := ⟨n - 1, by omega⟩
    simp only [List.map_cons, List.cons_append]
    unfold parseSelectItems
    rw [ih n2 (by simp at hn ⊢; omega)]
    rfl

theorem parseSelect_ok (ss : List String) (joinEntries : List (String × JValue))
    (rels : List (String × QueryObject))
    (hselnd : ss.Nodup)
    (hrelnd : (rels.map Prod.fst).Nodup)
    (hitems : ∀ m, ss.length + jsizeO joinEntries + 3 ≤ m →
      parseSelectItems m (ss.map .jstr ++ [.jobj joinEntries]) = .ok (ss, rels)) :
    ∀ n, ss.length + jsizeO joinEntries + 4 ≤ n →
      parseSelect n (.jarr (ss.map .jstr)) (.jobj joinEntries) = .ok (ss, rels) := by
  intro n hn
  obtain ⟨n2, rfl⟩ : ∃ n2, n = n2 + 1 := ⟨n - 1, by omega⟩
  unfold parseSelect
  simp only [hitems n2 (by omega), bind, Except.bind, pure, Except.pure]
  rw [dedupFirst_nodup_id ss hselnd, pyDictOf_nodup_id rels hrelnd]

theorem jsizeL_map_jstr (ss : List String) :
    jsizeL (ss.map .jstr) = 2 * ss.length + 1 := by
  induction ss with
  | nil => simp [jsizeL]
  | cons s rest ih =>
    simp only [List.map_cons, jsizeL, jsize, ih, List.length_cons]
    omega

theorem forall₂_fst_eq {β δ : Type}
    (R : (String × β) → (String × δ) → Prop)
    (hR : ∀ a b, R a b → a.1 = b.1) :
    ∀ (l1 : List (String × β)) (l2 : List (String × δ)),
      List.Forall₂ R l1 l2 → l1.map Prod.fst = l2.map Prod.fst := by
  intro l1 l2 hf
  induction hf with
  | nil => rfl
  | cons hab hrest ih =>
    simp only [List.map_cons, ih]
    rename_i a b l1a l2a
    rw [hR a b hab]

theorem parseQO_canonical : ∀ (d : List (String × JValue)), CanonicalQO d →
    ∃ qo : QueryObject,
      (∀ n, jsizeO d + 5 ≤ n → parseQO n d = .ok qo) ∧
      qo.dict = normalizeQO (jsizeO d + 4) d := by
  intro d0 hc
  induction hc with
  | intro d ss joinEntries fkvs sorts hnodup hkeys hsel hselnd hjoin hjnd hjobj
      hfil hfc hsort hsortc hskip hlimit hrec IH =>
    -- parsed relations, one per join entry
    have hrels : ∃ rels : List (String × QueryObject),
        List.Forall₂ (fun (p : String × JValue) (r : String × QueryObject) =>
          p.1 = r.1 ∧ ∃ sub, p.2 = JValue.jobj sub ∧
            (∀ m, jsizeO sub + 5 ≤ m → parseQO m sub = .ok r.2) ∧
            r.2.dict = normalizeQO (jsizeO sub + 4) sub ∧
            jsizeO sub + 4 ≤ jsizeO joinEntries) joinEntries rels := by
      have hgen : ∀ ents : List (String × JValue), (∀ p ∈ ents, p ∈ joinEntries) →
          ∃ rels0 : List (String × QueryObject),
          List.Forall₂ (fun (p : String × JValue) (r : String × QueryObject) =>
            p.1 = r.1 ∧ ∃ sub, p.2 = JValue.jobj sub ∧
              (∀ m, jsizeO sub + 5 ≤ m → parseQO m sub = .ok r.2) ∧
              r.2.dict = normalizeQO (jsizeO sub + 4) sub ∧
              jsizeO sub + 4 ≤ jsizeO joinEntries) ents rels0 := by
        intro ents hsubl
        induction ents with
        | nil => exact ⟨[], .nil⟩
        | cons p rest ihe =>
          obtain ⟨rels2, hr2⟩ := ihe (fun x hx => hsubl x (List.mem_cons_of_mem _ hx))
          have hpmem := hsubl p (List.mem_cons_self _ _)
          obtain ⟨sub, hsub⟩ := hjobj p hpmem
          obtain ⟨qo, hq1, hq2⟩ := IH p sub hpmem hsub
          have hszb : jsizeO sub + 4 ≤ jsizeO joinEntries := by
            have := mem_jsizeO_le joinEntries p hpmem
            rw [hsub] at this
            simp only [jsize] at this
            omega
          exact ⟨(p.1, qo) :: rels2, .cons ⟨rfl, sub, hsub, hq1, hq2, hszb⟩ hr2⟩
      exact hgen joinEntries (fun _ h => h)
    obtain ⟨rels, hf⟩ := hrels
    -- keys of the parsed relations
    have hkeysrel : joinEntries.map Prod.fst = rels.map Prod.fst :=
      forall₂_fst_eq _ (fun a b hab => hab.1) _ _ hf
    have hrelnd : (rels.map Prod.fst).Nodup := hkeysrel ▸ hjnd
    -- parsed filter conditions
    obtain ⟨conds, hpf, hcf⟩ := filter_entries_roundtrip fkvs hfc
    have hfkeysnd := canonicalFilterEntries_keys_nodup fkvs hfc
    have hexportconds : FilterQuery.export conds = fkvs := by
      unfold FilterQuery.export
      rw [foldl_update_singletons conds fkvs [] hcf (by simp) hfkeysnd]
      simp
    -- pager values
    have hskipv : ∃ sv, SkipQuery.from_query_object (jget d "skip") = .ok sv ∧
        optIntToJ sv = (jget d "skip").getD .jnull := by
      cases hs : jget d "skip" with
      | none => exact ⟨none, rfl, rfl⟩
      | some v =>
        rcases hskip v hs with rfl | ⟨i, rfl⟩
        · exact ⟨none, rfl, rfl⟩
        · exact ⟨some i, rfl, rfl⟩
    obtain ⟨skipv, hskipeq, hskipex⟩ := hskipv
    have hlimitv : ∃ lv, LimitQuery.from_query_object (jget d "limit") = .ok lv ∧
        optIntToJ lv = (jget d "limit").getD .jnull := by
      cases hs : jget d "limit" with
      | none => exact ⟨none, rfl, rfl⟩
      | some v =>
        rcases hlimit v hs with rfl | ⟨i, rfl⟩
        · exact ⟨none, rfl, rfl⟩
        · exact ⟨some i, rfl, rfl⟩
    obtain ⟨limitv, hlimiteq, hlimitex⟩ := hlimitv
    have hbeforex : ∀ k : String,
        (BeforeQuery.from_query_object (jget d k)).getD .jnull =
          (jget d k).getD .jnull := by
      intro k
      cases jget d k with
      | none => rfl
      | some v => cases v <;> rfl
    -- the four jgetOr values
    have hselv : jgetOr d "select" (.jarr []) = .jarr (ss.map .jstr) := by
      rcases hsel with ⟨habs, rfl⟩ | hpres
      · simp [jgetOr, habs]
      · cases ss with
        | nil => simp [jgetOr, hpres, JValue.truthy]
        | cons s rest => simp [jgetOr, hpres, JValue.truthy]
    have hjoinv : jgetOr d "join" (.jobj []) = .jobj joinEntries := by
      rcases hjoin with ⟨habs, rfl⟩ | hpres
      · simp [jgetOr, habs]
      · cases joinEntries with
        | nil => simp [jgetOr, hpres, JValue.truthy]
        | cons p rest => simp [jgetOr, hpres, JValue.truthy]
    have hfilv : jgetOr d "filter" (.jobj []) = .jobj fkvs := by
      rcases hfil with ⟨habs, rfl⟩ | hpres
      · simp [jgetOr, habs]
      · cases fkvs with
        | nil => simp [jgetOr, hpres, JValue.truthy]
        | cons p rest => simp [jgetOr, hpres, JValue.truthy]
    have hsortv : jgetOr d "sort" (.jarr []) = .jarr (sorts.map .jstr) := by
      rcases hsort with ⟨habs, rfl⟩ | hpres
      · simp [jgetOr, habs]
      · cases sorts with
        | nil => simp [jgetOr, hpres, JValue.truthy]
        | cons s rest => simp [jgetOr, hpres, JValue.truthy]
    -- relation parsing at every sufficient fuel
    have hrelok : ∀ m, jsizeO joinEntries + 2 ≤ m →
        parseRelationEntries m joinEntries = .ok rels := by
      refine parseRelationEntries_ok joinEntries rels (hf.imp ?_)
      rintro p r ⟨h1, sub, h2, h3, _, _⟩
      exact ⟨h1, sub, h2, h3⟩
    have hitems := parseSelectItems_ok joinEntries rels hrelok ss
    -- the constructed query object
    refine ⟨.mk ss rels conds (sorts.map SortQuery.parse_input_field) skipv limitv
      (BeforeQuery.from_query_object (jget d "before"))
      (BeforeQuery.from_query_object (jget d "after")), ?_, ?_⟩
    · -- the parser returns it at every sufficient fuel
      intro n hn
      have hdpos := jsizeO_pos d
      obtain ⟨n2, rfl⟩ : ∃ n2, n = n2 + 1 := ⟨n - 1, by omega⟩
      have hbound : ss.length + jsizeO joinEntries + 4 ≤ n2 := by
        rcases hsel with ⟨hs1, rfl⟩ | hs2 <;> rcases hjoin with ⟨hj1, rfl⟩ | hj2
        · simp only [jsizeO, List.length_nil]
          omega
        · have := jget_size_le d "join" _ hj2
          simp only [jsize] at this
          simp only [List.length_nil]
          omega
        · have := jget_size_le d "select" _ hs2
          simp only [jsize, jsizeL_map_jstr] at this
          simp only [jsizeO]
          omega
        · have := jget_pair_size_le d "select" "join" _ _ (by decide) hs2 hj2
          simp only [jsize, jsizeL_map_jstr] at this
          omega
      have hps : parseSelect n2 (.jarr (ss.map .jstr)) (.jobj joinEntries) =
          .ok (ss, rels) :=
        parseSelect_ok ss joinEntries rels hselnd hrelnd hitems n2 hbound
      have hfq : FilterQuery.from_query_object (.jobj fkvs) = .ok conds := hpf
      have hsq : SortQuery.from_query_object (.jarr (sorts.map .jstr)) =
          .ok (sorts.map SortQuery.parse_input_field) := sort_parse_strings sorts
      unfold parseQO
      simp only [hselv, hjoinv, hfilv, hsortv, hps, hfq, hsq, hskipeq, hlimiteq,
        bind, Except.bind, pure, Except.pure]
    · -- its dict is the normalized input
      have hcsel : JValue.jarr (ss.map .jstr) = (jget d "select").getD (.jarr []) := by
        rcases hsel with ⟨habs, rfl⟩ | hpres
        · rw [habs]
          rfl
        · rw [hpres]
          rfl
      have hcsort : JValue.jarr ((SortQuery.export
          (sorts.map SortQuery.parse_input_field)).map .jstr) =
          (jget d "sort").getD (.jarr []) := by
        rw [sort_export_canonical sorts hsortc]
        rcases hsort with ⟨habs, rfl⟩ | hpres
        · rw [habs]
          rfl
        · rw [hpres]
          rfl
      have hcfil : JValue.jobj (FilterQuery.export conds) =
          (jget d "filter").getD (.jobj []) := by
        rw [hexportconds]
        rcases hfil with ⟨habs, rfl⟩ | hpres
        · rw [habs]
          rfl
        · rw [hpres]
          rfl
      have hcjoin : JValue.jobj (QueryObject.export_join rels) =
          (match (jget d "join").getD (.jobj []) with
           | .jobj entries => JValue.jobj (entries.map fun (p : String × JValue) =>
               (p.1, match p.2 with
                     | .jobj sub => normalizeQO (jsizeO d + 3) sub
                     | other => other))
           | other => other) := by
        rcases hjoin with ⟨habs, rfl⟩ | hpres
        · rw [habs]
          cases hf
          rfl
        · rw [hpres]
          have hjE : jsizeO joinEntries + 4 ≤ jsizeO d := by
            have := jget_size_le d "join" _ hpres
            simp only [jsize] at this
            omega
          rw [export_join_map]
          refine congrArg JValue.jobj ?_
          have hmapgen : ∀ (ents : List (String × JValue))
              (rl : List (String × QueryObject)),
              List.Forall₂ (fun (p : String × JValue) (r : String × QueryObject) =>
                p.1 = r.1 ∧ ∃ sub, p.2 = JValue.jobj sub ∧
                  (∀ m, jsizeO sub + 5 ≤ m → parseQO m sub = .ok r.2) ∧
                  r.2.dict = normalizeQO (jsizeO sub + 4) sub ∧
                  jsizeO sub + 4 ≤ jsizeO joinEntries) ents rl →
              rl.map (fun r => (r.1, r.2.dict)) =
                ents.map (fun (p : String × JValue) =>
                  (p.1, match p.2 with
                        | JValue.jobj sub => normalizeQO (jsizeO d + 3) sub
                        | other => other)) := by
            intro ents rl hfa
            induction hfa with
            | nil => rfl
            | cons hpr hrest ihf =>
              rename_i p r ents2 rels2
              obtain ⟨h1, sub, h2, _, h4, h5⟩ := hpr
              simp only [List.map_cons, ihf]
              rw [h2, ← h1, h4]
              rw [normalizeQO_fuel_irrel (jsizeO sub + 4) sub (jsizeO d + 3)
                (by omega) (by omega)]
          exact hmapgen joinEntries rels hf
      have hstep : normalizeQO (jsizeO d + 4) d = JValue.jobj [
          ("select", (jget d "select").getD (.jarr [])),
          ("join", match (jget d "join").getD (.jobj []) with
            | .jobj entries => JValue.jobj (entries.map (fun (p : String × JValue) =>
                (p.1, match p.2 with
                      | .jobj sub => normalizeQO (jsizeO d + 3) sub
                      | other => other)))
            | other => other),
          ("filter", (jget d "filter").getD (.jobj [])),
          ("sort", (jget d "sort").getD (.jarr [])),
          ("skip", (jget d "skip").getD .jnull),
          ("limit", (jget d "limit").getD .jnull),
          ("before", (jget d "before").getD .jnull),
          ("after", (jget d "after").getD .jnull)] := rfl
      rw [hstep]
      simp only [QueryObject.dict]
      rw [← hcsel, ← hcsort, ← hcfil, hskipex, hlimitex, hbeforex "before",
        hbeforex "after", ← hcjoin]

/-- C1 (counterexample): parsing and re-exporting the Query Object dict
    containing only sort ["a"] does not reproduce its normalized form — the
    export appends the explicit "+" direction suffix, yielding sort ["a+"]. -/
theorem query_object_export_sort_counterexample :
    (queryObject_from_query_object [("sort", .jarr [.jstr "a"])]).map
        QueryObject.dict ≠
      .ok (normalize_query_object_dict [("sort", .jarr [.jstr "a"])]) := by
  intro h
  have h2 : (some (JValue.jarr [JValue.jstr "a+"]) : Option JValue) =
      some (JValue.jarr [JValue.jstr "a"]) := by
    have h3 := congrArg (fun e : Except QOErr JValue =>
      match e with
      | Except.ok (JValue.jobj l) => jget l "sort"
      | _ => none) h
    exact h3
  injection h2 with h4
  injection h4 with h5
  injection h5 with h6 h7
  injection h6 with h8
  exact absurd h8 (by decide)

/-- C1 (amended): for every canonical Query Object dict — one whose keys are
    among the eight known ones; whose select is an array of distinct strings;
    whose sort is an array of strings each in exactly the form the sort
    exporter reproduces, i.e. a canonical dot path with an explicit trailing
    "+" or "-"; whose filter is an object with distinct keys, each either a
    field reference in canonical dot-path form mapped to an object holding
    exactly one operator-value pair, or a "$"-prefixed boolean operator other
    than "$not" mapped to an array of one-entry condition objects that are
    themselves canonical; whose skip/limit are null or an integer; and whose
    join maps distinct relation names to canonical dicts recursively —
    from_query_object succeeds and the resulting QueryObject's dict equals
    the normalized input dict. -/
theorem query_object_roundtrip_canonical (d : List (String × JValue))
    (hc : CanonicalQO d) :
    (queryObject_from_query_object d).map QueryObject.dict =
      .ok (normalize_query_object_dict d) := by
  obtain ⟨qo, h1, h2⟩ := parseQO_canonical d hc
  unfold queryObject_from_query_object normalize_query_object_dict
  rw [h1 (jsizeO d + 5) (Nat.le_refl _)]
  simp only [Except.map]
  rw [h2]

/-- C1 witness: the amended round-trip theorem applied at a concrete
    canonical dict with select, a nested join, a filter and a skip. -/
theorem query_object_roundtrip_canonical_witness :
    CanonicalQO c1CanonicalInput ∧
    (queryObject_from_query_object c1CanonicalInput).map QueryObject.dict =
      .ok (normalize_query_object_dict c1CanonicalInput) := by
  have hinner : CanonicalQO [("sort", JValue.jarr [JValue.jstr "id-"])] := by
    refine .intro _ [] [] [] ["id-"] (by decide) (by decide)
      (Or.inl ⟨rfl, rfl⟩) (by decide) (Or.inl ⟨rfl, rfl⟩) (by decide)
      (fun p hp => nomatch hp) (Or.inl ⟨rfl, rfl⟩) (by decide)
      (Or.inr rfl) (by decide) (fun v hv => nomatch hv) (fun v hv => nomatch hv)
      (fun p sub hp _ => nomatch hp)
  have hc : CanonicalQO c1CanonicalInput := by
    refine .intro _ ["a"] [("r", .jobj [("sort", .jarr [.jstr "id-"])])]
      [("age", .jobj [("$gt", .jint 18)])] [] (by decide) (by decide)
      (Or.inr rfl) (by decide) (Or.inr rfl) (by decide) ?_
      (Or.inr rfl) (by decide) (Or.inl ⟨rfl, rfl⟩) (by decide)
      ?_ (fun v hv => nomatch hv) ?_
    · intro p hp
      rw [List.mem_singleton] at hp
      subst hp
      exact ⟨[("sort", .jarr [.jstr "id-"])], rfl⟩
    · intro v hv
      injection hv with h
      exact Or.inr ⟨5, h.symm⟩
    · intro p sub hp hsub
      rw [List.mem_singleton] at hp
      subst hp
      injection hsub with h
      rw [← h]
      exact hinner
  exact ⟨hc, query_object_roundtrip_canonical c1CanonicalInput hc⟩

/-! ## C2: automatic keyset cursor choice -/

/-- C2: when no explicit cursor string was supplied, the pager chooses the
    keyset implementation iff the resolved query has a non-empty sort, every
    sort field shares one direction, the final sort field is unique (primary
    key or unique constraint) and non-nullable, and every sort field name is
    selected; otherwise the skip implementation is chosen. -/
theorem keyset_cursor_chosen_iff (q : ResolvedPagerQuery) :
    (choose_cursor_impl none q = some .keyset ∨
     choose_cursor_impl none q = some .skip) ∧
    (choose_cursor_impl none q = some .keyset ↔
      (q.sortFields ≠ [] ∧
       (∀ f ∈ q.sortFields, ∀ g ∈ q.sortFields, f.direction = g.direction) ∧
       (∃ final, q.sortFields.getLast? = some final ∧
          (final.primary_key = true ∨ final.unique = true) ∧ final.nullable = false) ∧
       (∀ f ∈ q.sortFields, f.name ∈ q.selectNames))) := by
  constructor
  · unfold choose_cursor_impl
    by_cases h : pagination_possible q
    · exact Or.inl (by simp [h])
    · exact Or.inr (by simp [h])
  have hchoose : choose_cursor_impl none q = some .keyset ↔
      pagination_possible q = true := by
    unfold choose_cursor_impl
    by_cases h : pagination_possible q
    · simp [h]
    · simp [h]
  rw [hchoose]
  unfold pagination_possible
  split
  next hlast =>
    have hnil : q.sortFields = [] := by
      cases hq : q.sortFields with
      | nil => rfl
      | cons a rest =>
        rw [hq] at hlast
        simp at hlast
    simp [hnil]
  next final hlast =>
    have hne : q.sortFields ≠ [] := by
      intro h
      rw [h] at hlast
      simp at hlast
    have hif : ∀ (a b c : Bool),
        ((if a then false else if b then false else if c then false else true) = true
          ↔ (a = false ∧ b = false ∧ c = false)) := by decide
    rw [hif]
    have compA : ((q.sortFields.map (·.direction)).dedup.length ≠ 1 : Bool) = false ↔
        (∀ f ∈ q.sortFields, ∀ g ∈ q.sortFields, f.direction = g.direction) := by
      rw [decide_eq_false_iff_not, Decidable.not_not]
      rw [dedup_length_one _ (by simpa using hne)]
      constructor
      · intro h f hf g hg
        exact h f.direction (List.mem_map_of_mem _ hf) g.direction
          (List.mem_map_of_mem _ hg)
      · intro h x hx y hy
        rcases List.mem_map.mp hx with ⟨f, hf, hfx⟩
        rcases List.mem_map.mp hy with ⟨g, hg, hgy⟩
        rw [← hfx, ← hgy]
        exact h f hf g hg
    have compB : (!(is_column_property_unique final) ||
          is_column_property_nullable final) = false ↔
        ((final.primary_key = true ∨ final.unique = true) ∧ final.nullable = false) := by
      cases hpk : final.primary_key <;> cases hu : final.unique <;>
        cases hn : final.nullable <;>
        simp [is_column_property_unique, is_column_property_nullable, hpk, hu, hn]
    have compC : (!(q.sortFields.all fun f => q.selectNames.contains f.name)) = false ↔
        (∀ f ∈ q.sortFields, f.name ∈ q.selectNames) := by
      cases hall : q.sortFields.all (fun f => q.selectNames.contains f.name) with
      | true =>
        simp only [Bool.not_true]
        constructor
        · intro _ f hf
          have := List.all_eq_true.mp hall f hf
          simpa using this
        · intro _
          trivial
      | false =>
        simp only [Bool.not_false]
        constructor
        · intro h
          cases h
        · intro h
          exfalso
          have : q.sortFields.all (fun f => q.selectNames.contains f.name) = true :=
            List.all_eq_true.mpr (fun f hf => by simpa using h f hf)
          rw [hall] at this
          cases this
    rw [compA, compB, compC]
    constructor
    · rintro ⟨h1, h2, h3⟩
      exact ⟨hne, h1, ⟨final, hlast, h2.1, h2.2⟩, h3⟩
    · rintro ⟨_, h1, ⟨f, hf, hf1, hf2⟩, h3⟩
      rw [hlast] at hf
      injection hf with hf
      subst hf
      exact ⟨h1, ⟨hf1, hf2⟩, h3⟩

/-! ## C4: mutual exclusivity of skip, before, after -/

/-- C4: constructing the pager operation raises QueryObjectError iff more than
    one of the pagination inputs skip, before, after is set; with at most one
    of them set, the check raises no error. -/
theorem pager_mutual_exclusivity (skip : Option Int) (before after : Option String) :
    (∃ msg, before_after_init_check skip before after =
        .error (.queryObjectError msg)) ↔
      ((before.isSome = true ∧ after.isSome = true) ∨
       (before.isSome = true ∧ skip.isSome = true) ∨
       (after.isSome = true ∧ skip.isSome = true)) := by
  cases skip <;> cases before <;> cases after <;>
    simp [before_after_init_check]

/-! ## C10: zero skip and limit are treated as absent -/

/-- C10: a skip or limit of 0 is treated as absent: the skip/limit operation
    adds no OFFSET for skip=0 and no LIMIT for limit=0 (truthiness tests), and
    get_final_limit substitutes default_limit when the requested limit is 0,
    so limit=0 cannot request an empty page. -/
theorem skiplimit_zero_treated_as_absent (stmt : StmtPagination)
    (dl ml sk lim : Option Int) :
    apply_simple_skiplimit_pagination (some 0) lim stmt =
      apply_simple_skiplimit_pagination none lim stmt ∧
    apply_simple_skiplimit_pagination sk (some 0) stmt =
      apply_simple_skiplimit_pagination sk none stmt ∧
    apply_simple_skiplimit_pagination (some 0) (some 0) stmt = stmt ∧
    get_final_limit dl ml (some 0) = get_final_limit dl ml none ∧
    get_final_limit dl none (some 0) = dl := by
  refine ⟨rfl, ?_, rfl, rfl, ?_⟩
  · unfold apply_simple_skiplimit_pagination
    simp [truthyInt]
  · unfold get_final_limit
    simp [truthyInt]

/-! ## C7: an empty select falls back to the primary key -/

/-- C7: when the Select operation contributes no columns of its own (no
    selected fields and no selected relations), the generated statement gets
    the primary key columns instead, so its column list is never empty. -/
theorem empty_select_gets_primary_key (primary_key stmt : List String)
    (hpk : primary_key ≠ []) :
    (∀ c ∈ primary_key, c ∈ select_apply_to_statement [] [] primary_key stmt) ∧
    select_apply_to_statement [] [] primary_key stmt ≠ [] := by
  have hshape : select_apply_to_statement [] [] primary_key stmt =
      add_columns_if_missing (add_columns_if_missing stmt []) primary_key := rfl
  rw [hshape]
  constructor
  · intro c hc
    exact mem_add_columns_if_missing _ _ _ hc
  · intro hempty
    rcases List.exists_mem_of_ne_nil primary_key hpk with ⟨c, hc⟩
    have hmem := mem_add_columns_if_missing (add_columns_if_missing stmt [])
      primary_key c hc
    rw [hempty] at hmem
    simp at hmem

/-- Witness for C7 at a one-column primary key and an empty statement. -/
theorem empty_select_gets_primary_key_witness :
    (["id"] : List String) ≠ [] ∧ "id" ∈ select_apply_to_statement [] [] ["id"] [] :=
  ⟨by decide, (empty_select_gets_primary_key ["id"] [] (by decide)).1 "id"
    (by decide)⟩

/-! ## C3: skip-cursor pagination -/

/-- C3: with the skip cursor and a non-null limit, the statement carries
    OFFSET skip and LIMIT limit+1; has_next_page holds exactly when
    len(rows) = limit+1, and then the extra row is removed; the previous link
    exists iff skip is positive and encodes (max(skip-limit,0), limit); the
    next link exists iff has_next_page and encodes (skip+limit, limit). -/
theorem skip_cursor_statement_and_links {α : Type} (st : SkipCursorState) (l : Int)
    (stmt : StmtPagination) (rows : List α)
    (hl : st.limit = some l) (hl0 : 0 ≤ l)
    (hwf : ∀ c, st.cursor_value = some c → c.limit = l) :
    (skipCursor_apply_to_statement st stmt).offset
        = some (st.cursor_value.elim 0 (·.skip)) ∧
    (skipCursor_apply_to_statement st stmt).limit = some (l + 1) ∧
    ((skipCursor_inspect_data_rows st rows).2 = true ↔ (rows.length : Int) = l + 1) ∧
    ((rows.length : Int) = l + 1 →
      (skipCursor_inspect_data_rows st rows).1 = rows.dropLast ∧
      ((skipCursor_inspect_data_rows st rows).1.length : Int) = l) ∧
    (∀ hnp : Bool,
      ((skipCursor_get_page_links st hnp).prev.isSome = true ↔
          0 < st.cursor_value.elim 0 (·.skip)) ∧
      (0 < st.cursor_value.elim 0 (·.skip) →
        (skipCursor_get_page_links st hnp).prev =
          some ⟨max (st.cursor_value.elim 0 (·.skip) - l) 0, l⟩) ∧
      ((skipCursor_get_page_links st hnp).next =
        if hnp then some ⟨st.cursor_value.elim 0 (·.skip) + l, l⟩ else none)) := by
  obtain ⟨cv, lim⟩ := st
  simp only at hl
  subst hl
  have hskip : ∀ x : Int, (x = cv.elim 0 (·.skip)) →
      (match cv with | some c => c.skip | none => 0) = x := by
    intro x hx
    cases cv <;> simp [Option.elim] at hx ⊢ <;> omega
  refine ⟨?_, ?_, ?_, ?_, ?_⟩
  · cases cv <;> simp [skipCursor_apply_to_statement, Option.elim]
  · simp [skipCursor_apply_to_statement]
  · simp only [skipCursor_inspect_data_rows]
    constructor
    · intro h
      by_cases hc : ((rows.length : Int) = l + 1)
      · exact hc
      · simp [hc] at h
    · intro h
      simp [h]
  · intro h
    have hT : (decide ((rows.length : Int) = l + 1)) = true := by simpa using h
    constructor
    · simp [skipCursor_inspect_data_rows, hT]
    · simp only [skipCursor_inspect_data_rows, hT, if_true, List.length_dropLast]
      omega
  · intro hnp
    refine ⟨?_, ?_, ?_⟩
    · cases cv with
      | none =>
        simp [skipCursor_get_page_links, Option.elim]
      | some c =>
        simp only [skipCursor_get_page_links, Option.elim]
        by_cases hc : c.skip ≤ 0
        · simp [hc]
        · simp [hc]
          omega
    · intro hpos
      cases cv with
      | none =>
        simp [Option.elim] at hpos
      | some c =>
        simp only [Option.elim] at hpos
        simp [skipCursor_get_page_links, show ¬(c.skip ≤ 0) by omega]
    · cases cv with
      | none =>
        simp [skipCursor_get_page_links, Option.elim]
      | some c =>
        simp [skipCursor_get_page_links, Option.elim]

/-- Witness for C3 at cursor value (skip=4, limit=2) and three fetched rows. -/
theorem skip_cursor_statement_and_links_witness :
    (skipCursor_apply_to_statement ⟨some ⟨4, 2⟩, some 2⟩ ⟨none, none⟩).limit
      = some (2 + 1) :=
  (skip_cursor_statement_and_links (α := Nat) ⟨some ⟨4, 2⟩, some 2⟩ 2 ⟨none, none⟩
    [10, 11, 12] rfl (by decide)
    (fun c hc => by injection hc with h; rw [← h])).2.1

/-! ## C5: malformed cursors surface as QueryObjectError -/

/-- C5: decoding splits at the first colon, accepts only the skip and keys
    type tags, and JSON-decodes the base85-decoded remainder; every failure
    surfaced by the for_query cursor parsing is the QueryObjectError with
    message "The provided cursor is invalid", never a raw decoding exception. -/
theorem cursor_decode_errors_wrapped
    (b85decode : String → Except PyError String)
    (jsonLoads : String → Except PyError JValue)
    (page : Option String) (keyset_possible : Bool) :
    (∀ e, for_query_parse_cursor b85decode jsonLoads page keyset_possible = .error e →
      e = .queryObjectError "The provided cursor is invalid") ∧
    (∀ s r, decode_opaque_cursor b85decode jsonLoads s = .ok r →
      r.1 = "skip" ∨ r.1 = "keys") ∧
    (∀ s, breakAtChar ':' s.toList = none →
      decode_opaque_cursor b85decode jsonLoads s = .error .valueError) := by
  refine ⟨?_, ?_, ?_⟩
  · intro e h
    unfold for_query_parse_cursor at h
    cases hv : cursor_value_input b85decode jsonLoads page keyset_possible with
    | ok x =>
      rw [hv] at h
      cases h
    | error e2 =>
      rw [hv] at h
      injection h with h
      rw [← h]
  · intro s r h
    unfold decode_opaque_cursor at h
    cases hb : breakAtChar ':' s.toList with
    | none =>
      rw [hb] at h
      cases h
    | some ab =>
      rw [hb] at h
      dsimp only at h
      by_cases htag : (String.mk ab.1 = "skip" ∨ String.mk ab.1 = "keys")
      · rw [if_pos htag] at h
        cases hb85 : b85decode (String.mk ab.2) with
        | error e =>
          rw [hb85] at h
          cases h
        | ok dec =>
          rw [hb85] at h
          dsimp only at h
          cases hj : jsonLoads dec with
          | error e =>
            rw [hj] at h
            cases h
          | ok parsed =>
            rw [hj] at h
            injection h with h
            rw [← h]
            exact htag
      · rw [if_neg htag] at h
        cases h
  · intro s hb
    unfold decode_opaque_cursor
    rw [hb]

/-- Witness for C5: a cursor with a valid tag but invalid base85 payload is
    surfaced as the wrapped QueryObjectError. -/
theorem cursor_decode_errors_wrapped_witness :
    PyError.queryObjectError "The provided cursor is invalid" =
      .queryObjectError "The provided cursor is invalid" :=
  (cursor_decode_errors_wrapped b85fail jsonNull (some "skip:x") true).1
    (.queryObjectError "The provided cursor is invalid") rfl

theorem dictUpdate_replace_same_key (k : String) (v w : JValue) :
    dictUpdate [(k, v)] [(k, w)] = [(k, w)] := by
  simp [dictUpdate]

theorem export_fold_const_key (k nm : String) (sub : Option (List String))
    (hk : exportFieldExpression nm sub = k) (ops : List (String × JValue))
    (v : JValue) :
    (ops.map (fun p => FilterExpr.field nm sub p.1 p.2)).foldl
      (fun res c => dictUpdate res c.export) [(k, v)] =
    [(k, match ops.getLast? with
         | none => v
         | some p => JValue.jobj [p])] := by
  induction ops generalizing v with
  | nil => simp
  | cons p rest ih =>
    simp only [List.map_cons, List.foldl_cons]
    have hstep : dictUpdate [(k, v)] ((FilterExpr.field nm sub p.1 p.2).export) =
        [(k, JValue.jobj [p])] := by
      simp only [FilterExpr.export, hk]
      exact dictUpdate_replace_same_key k v (JValue.jobj [p])
    rw [hstep, ih]
    cases rest with
    | nil => simp
    | cons q rest2 =>
      cases hq : (q :: rest2).getLast? with
      | none => simp at hq
      | some x => rw [List.getLast?_cons_cons, hq]

/-! ## C8: the HTTP request-parameter adapter -/

/-- C8 counterexample: supplying only the join parameter makes the adapter
    return an absent value, although the claim says that supplying any of the
    six parameters assembles and parses a query object. -/
theorem fastapi_join_only_returns_absent :
    fastapi_query_object parse_arg_stub none (some "r") none none none none =
      .ok none := rfl

/-- C8 (amended): the emptiness check consults only the five parameters
    select, filter, sort, skip, limit (with falsy values counting as not
    supplied); the join parameter is ignored entirely; when at least one of
    the five is supplied, the adapter assembles the Query Object dict from
    those five and parses it into a QueryObject. -/
theorem fastapi_query_object_behavior
    (parse_arg : String → String → Except ArgumentValueError JValue)
    (select join join2 filter sort : Option String) (skip limit : Option Int) :
    (fastapi_query_object parse_arg select join filter sort skip limit =
      fastapi_query_object parse_arg select join2 filter sort skip limit) ∧
    (fastapi_query_object parse_arg select join filter sort skip limit = .ok none ↔
      (strNotSupplied select && strNotSupplied filter && strNotSupplied sort &&
       intNotSupplied skip && intNotSupplied limit) = true) ∧
    (∀ sv fv tv,
      parse_serialized_argument_opt parse_arg "select" select = .ok sv →
      parse_serialized_argument_opt parse_arg "filter" filter = .ok fv →
      parse_serialized_argument_opt parse_arg "sort" sort = .ok tv →
      (strNotSupplied select && strNotSupplied filter && strNotSupplied sort &&
       intNotSupplied skip && intNotSupplied limit) = false →
      fastapi_query_object parse_arg select join filter sort skip limit =
        (queryObject_from_query_object [
          ("select", sv.getD .jnull), ("filter", fv.getD .jnull),
          ("sort", tv.getD .jnull), ("skip", optIntToJ skip),
          ("limit", optIntToJ limit)]).map some) := by
  refine ⟨rfl, ?_, ?_⟩
  · unfold fastapi_query_object
    by_cases hb : (strNotSupplied select && strNotSupplied filter &&
        strNotSupplied sort && intNotSupplied skip && intNotSupplied limit) = true
    · rw [if_pos hb]
      simp [hb]
    · rw [if_neg hb]
      simp only [Bool.not_eq_true] at hb
      rw [hb]
      simp only [iff_false]
      cases hasm : (do
          let selV ← parse_serialized_argument_opt parse_arg "select" select
          let filterV ← parse_serialized_argument_opt parse_arg "filter" filter
          let sortV ← parse_serialized_argument_opt parse_arg "sort" sort
          return [
            ("select", selV.getD .jnull),
            ("filter", filterV.getD .jnull),
            ("sort", sortV.getD .jnull),
            ("skip", optIntToJ skip),
            ("limit", optIntToJ limit)] :
          Except ArgumentValueError (List (String × JValue))) with
      | error e => simp
      | ok d =>
        cases hq : queryObject_from_query_object d with
        | error e2 => simp [hq, Except.map]
        | ok qo => simp [hq, Except.map]
  · intro sv fv tv hsv hfv htv hfalse
    unfold fastapi_query_object
    rw [if_neg (by rw [hfalse]; intro h; cases h)]
    simp only [bind, Except.bind, pure, Except.pure, hsv, hfv, htv]

/-- Witness for C8: with only select supplied (parsed as null by the stand-in
    deserializer), the adapter parses the assembled five-key dict. -/
theorem fastapi_query_object_behavior_witness :
    fastapi_query_object parse_arg_stub (some "x") none none none none none =
      (queryObject_from_query_object [
        ("select", (Option.some JValue.jnull).getD .jnull),
        ("filter", (Option.none (α := JValue)).getD .jnull),
        ("sort", (Option.none (α := JValue)).getD .jnull),
        ("skip", optIntToJ none), ("limit", optIntToJ none)]).map some :=
  (fastapi_query_object_behavior parse_arg_stub (some "x") none none none none
    none none).2.2 (some .jnull) none none rfl rfl rfl (by decide)

/-! ## C9: duplicate operators on one filter field -/

/-- C9: a filter dict applying several operators to one field parses into one
    condition node per operator; each condition exports as a one-key dict and
    the export merge keeps only the last operator for that field. -/
theorem filter_export_keeps_last_operator (fname : String)
    (ops : List (String × JValue))
    (hf : pyStartsWith fname "$" = false) (h2 : 2 ≤ ops.length) :
    FilterQuery.parse_input_fields [(fname, .jobj ops)] =
      .ok (ops.map (fun p => .field (parse_dot_path fname).1
        (parse_dot_path fname).2 p.1 p.2)) ∧
    (ops.map (fun p => FilterExpr.field (parse_dot_path fname).1
        (parse_dot_path fname).2 p.1 p.2)).length = ops.length ∧
    (∀ lastOp, ops.getLast? = some lastOp →
      FilterQuery.export (ops.map (fun p => FilterExpr.field
          (parse_dot_path fname).1 (parse_dot_path fname).2 p.1 p.2)) =
        [(exportFieldExpression (parse_dot_path fname).1 (parse_dot_path fname).2,
          .jobj [lastOp])]) := by
  refine ⟨?_, by simp, ?_⟩
  · unfold FilterQuery.parse_input_fields
    rw [hf]
    simp [FilterQuery.parse_input_field_expressions,
      show FilterQuery.parse_input_fields [] = .ok [] from rfl]
  · intro lastOp hlast
    cases ops with
    | nil => cases hlast
    | cons p rest =>
      unfold FilterQuery.export
      simp only [List.map_cons, List.foldl_cons]
      have hstep : dictUpdate []
          ((FilterExpr.field (parse_dot_path fname).1 (parse_dot_path fname).2
            p.1 p.2).export) =
          [(exportFieldExpression (parse_dot_path fname).1 (parse_dot_path fname).2,
            JValue.jobj [p])] := by
        simp [dictUpdate, FilterExpr.export]
      rw [hstep, export_fold_const_key _ _ _ rfl]
      cases hr : rest.getLast? with
      | none =>
        have : rest = [] := by
          cases rest with
          | nil => rfl
          | cons q r2 => simp [List.getLast?_concat] at hr
        subst this
        simp at hlast
        rw [hlast]
      | some q =>
        cases rest with
        | nil => cases hr
        | cons q2 r2 =>
          rw [List.getLast?_cons_cons] at hlast
          rw [hr] at hlast
          injection hlast with hlast
          rw [hlast]

/-- Witness for C9 at the filter age gt 1, lt 5. -/
theorem filter_export_keeps_last_operator_witness :
    FilterQuery.export ([("$gt", JValue.jint 1), ("$lt", JValue.jint 5)].map
      (fun p => FilterExpr.field (parse_dot_path "a").1 (parse_dot_path "a").2
        p.1 p.2)) =
      [(exportFieldExpression (parse_dot_path "a").1 (parse_dot_path "a").2,
        .jobj [("$lt", JValue.jint 5)])] :=
  (filter_export_keeps_last_operator "a" [("$gt", .jint 1), ("$lt", .jint 5)]
    (by decide) (by decide)).2.2 ("$lt", .jint 5) rfl

/-! ## C6: NULL foreign keys in the load-only-child loader -/

/-- C6: evaluating the MANYTOONE loading pipeline. In a batch where every
    parent FK tuple is NULL, the none bucket rows keep their relation slot
    unassigned (the source populates none_states inside the while loop over
    chunks, which never runs) and no query is issued; in a mixed batch the
    none bucket rows do get None and the issued query contains only the
    non-NULL keys. -/
theorem load_via_child_none_states_evaluation :
    jselectin_load_child (T := Unit) (fun _ => none) false
      [⟨[none], none⟩] = ([⟨[none], none⟩], []) ∧
    jselectin_load_child (T := Unit) (fun _ => some ()) false
      [⟨[some 1], none⟩, ⟨[none], none⟩] =
      ([⟨[some 1], some (.one (some ()))⟩, ⟨[none], some (.one none)⟩],
       [[[some 1]]]) := by
  exact ⟨rfl, rfl⟩

end Jessiql
